import Mathlib

/-!
A shallow embedding of the qcow2 cluster refcount and allocation engine
from block/qcow2-refcount.c.

Modelling conventions:
* machine integers are `Nat`/`Int`; power-of-two shifts and masks are
  translated to division, multiplication and modulus (exact for the
  unsigned quantities involved); 64-bit masking is made explicit with
  `% 2 ^ 64` where the C code masks a `uint64_t`;
* the metadata cache and the backing file are modelled as one reliable
  in-memory store: `qcow2_cache_get`/`put`/`flush` and
  `bdrv_pread`/`bdrv_pwrite_sync` never fail.  The refcount-block store
  is the function `QState.blocks : Nat → Nat → Nat` mapping a block's
  byte offset and a counter index to the 16-bit counter value;
* `qcow2_signal_corruption` is modelled as setting `QState.corrupted`;
* C functions that recurse (`update_refcount` ↔ `alloc_refcount_block`)
  are given a fuel parameter; running out of fuel yields the artificial
  error `-errno_enofuel`, which no C path can produce;
* offsets and lengths that are `int64_t` in C are `Int` here, and the
  sign guards of the C code are kept; all call sites in the engine pass
  non-negative offsets, and the embedding converts to `Nat` after the
  guards.
-/

namespace Qcow2

/-- Errno values used by the engine (linux/errno.h). -/
def errno_eio : Int := 5

def errno_eagain : Int := 11

def errno_einval : Int := 22

def errno_efbig : Int := 27

/-- Artificial errno marking fuel exhaustion of the embedding; no code path
of the C source can return it. -/
def errno_enofuel : Int := 95

/-- QCOW_MAX_REFTABLE_SIZE from qcow2.h. -/
def qcow_max_reftable_size : Nat := 8 * 1024 * 1024

/-- The enum qcow2_discard_type. -/
inductive DiscardType where
  | never
  | always
  | request
  | snapshot
  | other
deriving DecidableEq

/-- A queued discard region (Qcow2DiscardRegion). -/
structure DiscardRegion where
  offset : Nat
  bytes : Nat
deriving DecidableEq

/-- One snapshot record, with its L1 table location and the L1 entries as
stored on disk (already byte-swapped to host order). -/
structure QSnapshot where
  l1_table_offset : Nat
  l1_size : Nat
  l1_entries : List Nat

/-- The portion of BDRVQcowState used by the refcount engine.  The refcount
table length plays the role of `refcount_table_size`. -/
structure QState where
  cluster_bits : Nat
  refcount_table : List Nat
  refcount_table_offset : Nat
  free_cluster_index : Nat
  blocks : Nat → Nat → Nat
  discards : List DiscardRegion
  cache_discards : Bool
  discard_passthrough : DiscardType → Bool
  overlap_check : Nat
  corrupted : Bool
  l1_table_offset : Nat
  l1_size : Nat
  l1_table : Option (List Nat)
  snapshots_offset : Nat
  snapshots_size : Nat
  snapshots : Option (List QSnapshot)

def cluster_size (s : QState) : Nat := 2 ^ s.cluster_bits

/-- refcount_block_bits for the 16-bit counters of the v2 format:
`cluster_bits - (refcount width in bytes = 2 → 1)`. -/
def refcount_block_bits (s : QState) : Nat := s.cluster_bits - 1

def refcount_block_size (s : QState) : Nat := 2 ^ refcount_block_bits s

/-- size_to_clusters from qcow2.h. -/
def size_to_clusters (s : QState) (size : Nat) : Nat :=
  (size + cluster_size s - 1) / cluster_size s

/-- Application of REFT_OFFSET_MASK (0xfffffffffffffe00): keep bits 9..63. -/
def reft_offset_mask (x : Nat) : Nat := x % 2 ^ 64 / 512 * 512

/-- Application of L1E_OFFSET_MASK (0x00fffffffffffe00): keep bits 9..55. -/
def l1e_offset_mask (x : Nat) : Nat := x % 2 ^ 56 / 512 * 512

/-- in_same_refcount_block: do two byte offsets fall under the same refcount
block? -/
def in_same_refcount_block (s : QState) (offset_a offset_b : Nat) : Bool :=
  offset_a / 2 ^ (s.cluster_bits + refcount_block_bits s) =
    offset_b / 2 ^ (s.cluster_bits + refcount_block_bits s)

/-- qcow2_signal_corruption: report corruption and mark the image corrupt. -/
def signal_corruption (s : QState) : QState := { s with corrupted := true }

/-- Store one counter into the refcount-block store. -/
def setCounter (s : QState) (blk idx v : Nat) : QState :=
  { s with blocks := fun o i => if o = blk ∧ i = idx then v else s.blocks o i }

/-- memset of a whole refcount block to zero. -/
def zeroBlock (s : QState) (blk : Nat) : QState :=
  { s with blocks := fun o i => if o = blk then 0 else s.blocks o i }

/-- Result of `get_refcount`: the C return value, the state (which can only
have gained a corruption mark), and the number of cache accesses made. -/
structure GetRC where
  ret : Int
  st : QState
  cache_gets : Nat

/-- get_refcount (qcow2-refcount.c:88): refcount of a cluster by index, or a
negative errno. -/
def get_refcount (s : QState) (cluster_index : Nat) : GetRC :=
  let ti := cluster_index / refcount_block_size s
  if ti < s.refcount_table.length then
    let rbo := s.refcount_table.getD ti 0
    if rbo = 0 then ⟨0, s, 0⟩
    else if rbo % cluster_size s ≠ 0 then ⟨-errno_eio, signal_corruption s, 0⟩
    else ⟨(s.blocks rbo (cluster_index % refcount_block_size s) : Int), s, 1⟩
  else ⟨0, s, 0⟩

/-- The regions a run of qcow2_process_discards hands to bdrv_discard, in
queue order: all of them when the triggering result is non-negative. -/
def process_discards_issued (ret : Int) : List DiscardRegion → List DiscardRegion
  | [] => []
  | d :: rest =>
      (if 0 ≤ ret then [d] else []) ++ process_discards_issued ret rest

/-- qcow2_process_discards (qcow2-refcount.c:457): drain the queue, issuing
each region to the backend iff `ret ≥ 0`; backend results are ignored.  The
second component records the regions issued to the backend. -/
def qcow2_process_discards (s : QState) (ret : Int) : QState × List DiscardRegion :=
  ({ s with discards := [] }, process_discards_issued ret s.discards)

/-- First pass of update_refcount_discard: find the first queued region the
new range extends (adjacent or overlapping), returning the queue cells before
it, the merged region, and the cells after it. -/
def split_mergeable (offset length : Nat) :
    List DiscardRegion → Option (List DiscardRegion × DiscardRegion × List DiscardRegion)
  | [] => none
  | d :: rest =>
      let new_start := min offset d.offset
      let new_end := max (offset + length) (d.offset + d.bytes)
      if new_end - new_start ≤ length + d.bytes then
        some ([], ⟨new_start, new_end - new_start⟩, rest)
      else
        match split_mergeable offset length rest with
        | some (before, m, rest2) => some (d :: before, m, rest2)
        | none => none

/-- Second pass of update_refcount_discard: scan the other queue cells once,
absorbing any cell adjacent to the (possibly growing) region `d`. -/
def absorb_adjacent (d : DiscardRegion) (q : List DiscardRegion) :
    DiscardRegion × List DiscardRegion :=
  q.foldl
    (fun acc p =>
      if acc.1.offset + acc.1.bytes < p.offset ∨ p.offset + p.bytes < acc.1.offset then
        (acc.1, acc.2 ++ [p])
      else
        (⟨min acc.1.offset p.offset, acc.1.bytes + p.bytes⟩, acc.2))
    (d, [])

/-- update_refcount_discard (qcow2-refcount.c:476): queue a freed range,
merging with adjacent queued regions. -/
def update_refcount_discard (s : QState) (offset length : Nat) : QState :=
  match split_mergeable offset length s.discards with
  | some (before, d, rest) =>
      let r1 := absorb_adjacent d before
      let r2 := absorb_adjacent r1.1 rest
      { s with discards := r1.2 ++ [r2.1] ++ r2.2 }
  | none =>
      let r := absorb_adjacent ⟨offset, length⟩ s.discards
      { s with discards := r.2 ++ [r.1] }

/-- Outcome of one scan of `nb_clusters` clusters in alloc_clusters_noref. -/
inductive ScanOut where
  | ok (s : QState)
  | err (e : Int) (s : QState)
  | busy (s : QState)

/-- The inner for-loop of alloc_clusters_noref: advance the free-cluster
cursor over `n` clusters, checking that each is free. -/
def noref_run (s : QState) : Nat → ScanOut
  | 0 => .ok s
  | n + 1 =>
      let next_cluster_index := s.free_cluster_index
      let s1 := { s with free_cluster_index := next_cluster_index + 1 }
      let g := get_refcount s1 next_cluster_index
      if g.ret < 0 then .err g.ret g.st
      else if g.ret ≠ 0 then .busy g.st
      else noref_run g.st n

/-- The retry loop of alloc_clusters_noref. -/
def noref_retry : Nat → QState → Nat → Int × QState
  | 0, s, _ => (-errno_enofuel, s)
  | fuel + 1, s, nb_clusters =>
      match noref_run s nb_clusters with
      | .ok s1 => (((s1.free_cluster_index - nb_clusters) * cluster_size s1 : Nat), s1)
      | .err e s1 => (e, s1)
      | .busy s1 => noref_retry fuel s1 nb_clusters

/-- alloc_clusters_noref (qcow2-refcount.c:660): find a run of free clusters
without touching any refcount. -/
def alloc_clusters_noref (fuel : Nat) (s : QState) (size : Nat) : Int × QState :=
  let s1 := if s.cache_discards then (qcow2_process_discards s 0).1 else s
  noref_retry fuel s1 (size_to_clusters s1 size)

/-- The while-loop of next_refcount_table_size, growing the cluster count
geometrically until it reaches `min_clusters`. -/
def nrts_fix : Nat → Nat → Nat → Nat
  | 0, _, rtc => rtc
  | f + 1, min_clusters, rtc =>
      if rtc < min_clusters then nrts_fix f min_clusters ((rtc * 3 + 1) / 2) else rtc

/-- next_refcount_table_size (qcow2-refcount.c:133): round the table size up
to avoid growing the table for each single refcount block.  The loop fuel
`min_clusters + 1` always suffices, since the cluster count grows by at
least one per step. -/
def next_refcount_table_size (s : QState) (min_size : Nat) : Nat :=
  let k := s.cluster_bits - 3
  let min_clusters := min_size / 2 ^ k + 1
  nrts_fix (min_clusters + 1) min_clusters (max 1 (s.refcount_table.length / 2 ^ k)) * 2 ^ k

/-- The do-while fixed-point loop of the refcount-table growth computing the
final table size (qcow2-refcount.c:345). -/
def grow_ts_fix : Nat → QState → Nat → Nat → Nat
  | 0, _, _, ts => ts
  | f + 1, s, blocks_used, ts =>
      let table_clusters := size_to_clusters s (ts * 8)
      let blocks_clusters :=
        1 + (table_clusters + refcount_block_size s - 1) / refcount_block_size s
      let meta_clusters := table_clusters + blocks_clusters
      let ts2 := next_refcount_table_size s
        (blocks_used + (meta_clusters + refcount_block_size s - 1) / refcount_block_size s)
      if ts2 = ts then ts else grow_ts_fix f s blocks_used ts2

/-- The new refcount table built during a table growth
(qcow2-refcount.c:365-380): the old table copied into a zero-filled larger
array, the triggering block hooked at its index, and one entry per
self-describing metadata block. -/
def grown_table (s : QState)
    (refcount_table_index new_block blocks_used blocks_clusters table_size meta_offset : Nat) :
    List Nat :=
  let base := (s.refcount_table ++ List.replicate (table_size - s.refcount_table.length) 0).take table_size
  let t1 := base.set refcount_table_index new_block
  (List.range blocks_clusters).foldl
    (fun t i => t.set (blocks_used + i) (meta_offset + i * cluster_size s)) t1

/-- The write of the freshly filled refcount blocks during a table growth
(qcow2-refcount.c:382-392): `blocks_clusters` consecutive clusters starting
at `meta_offset`, whose first `nset` counters are 1 and the rest 0. -/
def write_new_blocks (s : QState) (meta_offset blocks_clusters nset : Nat) : QState :=
  { s with blocks := fun o i =>
      if meta_offset ≤ o ∧ o < meta_offset + blocks_clusters * cluster_size s ∧
          (o - meta_offset) % cluster_size s = 0 ∧ i < refcount_block_size s then
        if (o - meta_offset) / cluster_size s * refcount_block_size s + i < nset then 1 else 0
      else s.blocks o i }

mutual

/-- The per-cluster loop of update_refcount (qcow2-refcount.c:553-596).
`cur` holds the table index and block offset of the refcount block kept from
the previous iteration.  Returns the C `ret`, the state, and the
`cluster_offset` the loop stopped at (meaningful on error). -/
def update_rc_loop (fuel : Nat) (s : QState) (offs : List Nat) (addend : Int)
    (ty : DiscardType) (cur : Option (Nat × Nat)) : Int × QState × Nat :=
  match fuel with
  | 0 => (-errno_enofuel, s, 0)
  | fuel + 1 =>
      match offs with
      | [] => (0, s, 0)
      | co :: rest =>
          let ci := co / cluster_size s
          let ti := ci / refcount_block_size s
          let got : Int × QState × Nat :=
            match cur with
            | some c => if ti = c.1 then (0, s, c.2) else alloc_refcount_block fuel s ci
            | none => alloc_refcount_block fuel s ci
          if got.1 < 0 then (got.1, got.2.1, co)
          else
            let s1 := got.2.1
            let rbo := got.2.2
            let bi := ci % refcount_block_size s1
            let rc : Int := (s1.blocks rbo bi : Int) + addend
            if rc < 0 ∨ 65535 < rc then (-errno_einval, s1, co)
            else
              let s2 :=
                if rc = 0 ∧ ci < s1.free_cluster_index then
                  { s1 with free_cluster_index := ci }
                else s1
              let s3 := setCounter s2 rbo bi rc.toNat
              let s4 :=
                if rc = 0 ∧ s3.discard_passthrough ty then
                  update_refcount_discard s3 co (cluster_size s3)
                else s3
              update_rc_loop fuel s4 rest addend ty (some (ti, rbo))
termination_by structural fuel

/-- alloc_refcount_block (qcow2-refcount.c:164): load the refcount block
covering `cluster_index`, bootstrapping a new one (and growing the table)
when absent.  Returns the C `ret`, the state, and on success the block's
byte offset. -/
def alloc_refcount_block (fuel : Nat) (s : QState) (cluster_index : Nat) :
    Int × QState × Nat :=
  match fuel with
  | 0 => (-errno_enofuel, s, 0)
  | fuel + 1 =>
      let ti := cluster_index / refcount_block_size s
      let rbo := reft_offset_mask (s.refcount_table.getD ti 0)
      if ti < s.refcount_table.length ∧ rbo ≠ 0 then
        if rbo % cluster_size s ≠ 0 then (-errno_eio, signal_corruption s, 0)
        else (0, s, rbo)
      else
        let a := alloc_clusters_noref fuel s (cluster_size s)
        if a.1 < 0 then (a.1, a.2, 0)
        else
          let new_block := a.1.toNat
          if in_same_refcount_block a.2 new_block (cluster_index * cluster_size a.2) then
            let s2 := setCounter (zeroBlock a.2 new_block) new_block
              (new_block / cluster_size a.2 % refcount_block_size a.2) 1
            after_bootstrap fuel s2 ti cluster_index new_block
          else
            let u := update_refcount_parts fuel a.2 (new_block : Int)
              ((cluster_size a.2 : Nat) : Int) 1 .never
            if u.1 < 0 then (u.1, u.2.1, 0)
            else after_bootstrap fuel (zeroBlock u.2.1 new_block) ti cluster_index new_block
termination_by structural fuel

/-- The tail of a refcount-block bootstrap (qcow2-refcount.c:286-302): hook
the flushed block into the refcount table when there is room (returning the
restart signal), or grow the table. -/
def after_bootstrap (fuel : Nat) (s : QState)
    (refcount_table_index cluster_index new_block : Nat) : Int × QState × Nat :=
  match fuel with
  | 0 => (-errno_enofuel, s, 0)
  | fuel + 1 =>
      if refcount_table_index < s.refcount_table.length then
        (-errno_eagain,
          { s with refcount_table := s.refcount_table.set refcount_table_index new_block }, 0)
      else
        grow_refcount_table fuel s refcount_table_index cluster_index new_block
termination_by structural fuel

/-- The refcount-table growth (qcow2-refcount.c:309-446): compute the new
size, lay out the self-describing metadata past all described clusters,
write blocks, table and header, switch in memory, free the old table, and
signal restart. -/
def grow_refcount_table (fuel : Nat) (s : QState)
    (refcount_table_index cluster_index new_block : Nat) : Int × QState × Nat :=
  match fuel with
  | 0 => (-errno_enofuel, s, 0)
  | fuel + 1 =>
      let rbs := refcount_block_size s
      let blocks_used :=
        (max (cluster_index + 1) (new_block / cluster_size s + 1) + rbs - 1) / rbs
      if qcow_max_reftable_size / 8 < blocks_used then (-errno_efbig, s, 0)
      else
        let table_size :=
          grow_ts_fix fuel s blocks_used (next_refcount_table_size s (blocks_used + 1))
        let table_clusters := size_to_clusters s (table_size * 8)
        let blocks_clusters := 1 + (table_clusters + rbs - 1) / rbs
        let meta_offset := blocks_used * rbs * cluster_size s
        let table_offset := meta_offset + blocks_clusters * cluster_size s
        let new_table := grown_table s refcount_table_index new_block blocks_used
          blocks_clusters table_size meta_offset
        let s1 := write_new_blocks s meta_offset blocks_clusters
          (table_clusters + blocks_clusters)
        let old_table_offset := s1.refcount_table_offset
        let old_table_size := s1.refcount_table.length
        let s2 := { s1 with refcount_table := new_table, refcount_table_offset := table_offset }
        let s3 := qcow2_free_clusters fuel s2 (old_table_offset : Int)
          ((old_table_size * 8 : Nat) : Int) .other
        (-errno_eagain, s3, 0)
termination_by structural fuel

/-- update_refcount (qcow2-refcount.c:527), with the best-effort undo of
line 614 made observable: the third component records the undo's own return
value when an undo was attempted. -/
def update_refcount_parts (fuel : Nat) (s : QState) (offset length addend : Int)
    (ty : DiscardType) : Int × QState × Option Int :=
  match fuel with
  | 0 => (-errno_enofuel, s, none)
  | fuel + 1 =>
      if length < 0 then (-errno_einval, s, none)
      else if length = 0 then (0, s, none)
      else
        let cs := cluster_size s
        let offN := offset.toNat
        let lenN := length.toNat
        let start := offN / cs * cs
        let last := (offN + lenN - 1) / cs * cs
        let offs := (List.range ((last - start) / cs + 1)).map (fun i => start + i * cs)
        let r := update_rc_loop fuel s offs addend ty none
        let s2 := if r.2.1.cache_discards then r.2.1 else (qcow2_process_discards r.2.1 r.1).1
        if r.1 < 0 then
          let u := update_refcount_parts fuel s2 offset ((r.2.2 : Int) - offset) (-addend) .never
          (r.1, u.2.1, some u.1)
        else (r.1, s2, none)
termination_by structural fuel

/-- qcow2_free_clusters (qcow2-refcount.c:807): decrement a range's
refcounts; a failure is only logged. -/
def qcow2_free_clusters (fuel : Nat) (s : QState) (offset size : Int)
    (ty : DiscardType) : QState :=
  match fuel with
  | 0 => s
  | fuel + 1 => (update_refcount_parts fuel s offset size (-1) ty).2.1
termination_by structural fuel

end

/-- update_refcount as its callers see it: return value and state. -/
def update_refcount (fuel : Nat) (s : QState) (offset length addend : Int)
    (ty : DiscardType) : Int × QState :=
  ((update_refcount_parts fuel s offset length addend ty).1,
    (update_refcount_parts fuel s offset length addend ty).2.1)

/-- qcow2_alloc_clusters (qcow2-refcount.c:691): the do-while retry loop
around alloc_clusters_noref and update_refcount. -/
def qcow2_alloc_clusters : Nat → QState → Nat → Int × QState
  | 0, s, _ => (-errno_enofuel, s)
  | fuel + 1, s, size =>
      let a := alloc_clusters_noref fuel s size
      if a.1 < 0 then (a.1, a.2)
      else
        let u := update_refcount fuel a.2 a.1 (size : Nat) 1 .never
        if u.1 = -errno_eagain then qcow2_alloc_clusters fuel u.2 size
        else if u.1 < 0 then (u.1, u.2)
        else (a.1, u.2)

/-- The free-cluster scan of qcow2_alloc_clusters_at: count how many of the
`n` clusters from `cluster_index` on are free, stopping at the first busy
one, or fail with get_refcount's error. -/
def alloc_at_scan (s : QState) (cluster_index : Nat) : Nat → (Int × QState) ⊕ (QState × Nat)
  | 0 => .inr (s, 0)
  | n + 1 =>
      let g := get_refcount s cluster_index
      if g.ret < 0 then .inl (g.ret, g.st)
      else if g.ret ≠ 0 then .inr (g.st, 0)
      else
        match alloc_at_scan g.st (cluster_index + 1) n with
        | .inl e => .inl e
        | .inr (s2, i) => .inr (s2, i + 1)

/-- qcow2_alloc_clusters_at (qcow2-refcount.c:713): allocate up to
`nb_clusters` clusters at a fixed offset, retrying on the restart signal;
returns the number of clusters allocated or a negative errno. -/
def qcow2_alloc_clusters_at : Nat → QState → Nat → Nat → Int × QState
  | 0, s, _, _ => (-errno_enofuel, s)
  | fuel + 1, s, offset, nb_clusters =>
      if nb_clusters = 0 then (0, s)
      else
        match alloc_at_scan s (offset / cluster_size s) nb_clusters with
        | .inl e => (e.1, e.2)
        | .inr (s1, i) =>
            let u := update_refcount fuel s1 (offset : Nat) ((i * cluster_size s1 : Nat) : Int) 1 .never
            if u.1 = -errno_eagain then qcow2_alloc_clusters_at fuel u.2 offset nb_clusters
            else if u.1 < 0 then (u.1, u.2)
            else ((i : Nat), u.2)

/-- ranges_overlap from qemu/range.h, for non-empty ranges: neither range's
last byte lies before the other's first byte. -/
def ranges_overlap (first1 len1 first2 len2 : Nat) : Bool :=
  decide (first1 ≤ first2 + len2 - 1 ∧ first2 ≤ first1 + len1 - 1)

/-- Is check `bitnr` enabled: set in the image's overlap-check mask and not
suppressed by the caller's ignore mask (`chk = s->overlap_check & ~ign`). -/
def chk_bit (chk0 ign bitnr : Nat) : Bool :=
  decide (chk0 / 2 ^ bitnr % 2 = 1 ∧ ign / 2 ^ bitnr % 2 = 0)

/-- The QCow2MetadataOverlap region values (qcow2.h). -/
def qcow2_ol_main_header : Int := 1

def qcow2_ol_active_l1 : Int := 2

def qcow2_ol_active_l2 : Int := 4

def qcow2_ol_refcount_table : Int := 8

def qcow2_ol_refcount_block : Int := 16

def qcow2_ol_snapshot_table : Int := 32

def qcow2_ol_inactive_l1 : Int := 64

def qcow2_ol_inactive_l2 : Int := 128

/-- qcow2_check_metadata_overlap (qcow2-refcount.c:2106): test a write range
against every tracked metadata region, in the order of the C code, returning
the first overlapping region's value, or 0.  The snapshot L1 tables read
from disk for the inactive-L2 check are the recorded `l1_entries`
(reads are reliable in this model). -/
def qcow2_check_metadata_overlap (s : QState) (ign : Nat) (offset size : Int) : Int :=
  if size = 0 then 0
  else if chk_bit s.overlap_check ign 0 ∧ offset < (cluster_size s : Int) then
    qcow2_ol_main_header
  else
    let szN := (offset.toNat % cluster_size s + size.toNat + cluster_size s - 1) /
      cluster_size s * cluster_size s
    let offN := offset.toNat / cluster_size s * cluster_size s
    if chk_bit s.overlap_check ign 1 ∧ s.l1_size ≠ 0 ∧
        ranges_overlap offN szN s.l1_table_offset (s.l1_size * 8) then
      qcow2_ol_active_l1
    else if chk_bit s.overlap_check ign 3 ∧ s.refcount_table.length ≠ 0 ∧
        ranges_overlap offN szN s.refcount_table_offset (s.refcount_table.length * 8) then
      qcow2_ol_refcount_table
    else if chk_bit s.overlap_check ign 5 ∧ s.snapshots_size ≠ 0 ∧
        ranges_overlap offN szN s.snapshots_offset s.snapshots_size then
      qcow2_ol_snapshot_table
    else if chk_bit s.overlap_check ign 6 ∧
        (s.snapshots.getD []).any (fun sn =>
          decide (sn.l1_size ≠ 0) &&
          ranges_overlap offN szN sn.l1_table_offset (sn.l1_size * 8)) then
      qcow2_ol_inactive_l1
    else if chk_bit s.overlap_check ign 2 ∧
        (s.l1_table.getD []).any (fun e =>
          decide (l1e_offset_mask e ≠ 0) &&
          ranges_overlap offN szN (l1e_offset_mask e) (cluster_size s)) then
      qcow2_ol_active_l2
    else if chk_bit s.overlap_check ign 4 ∧
        s.refcount_table.any (fun e =>
          decide (reft_offset_mask e ≠ 0) &&
          ranges_overlap offN szN (reft_offset_mask e) (cluster_size s)) then
      qcow2_ol_refcount_block
    else if chk_bit s.overlap_check ign 7 ∧
        (s.snapshots.getD []).any (fun sn =>
          sn.l1_entries.any (fun e =>
            decide (l1e_offset_mask e ≠ 0) &&
            ranges_overlap offN szN (l1e_offset_mask e) (cluster_size s))) then
      qcow2_ol_inactive_l2
    else 0

/-- qcow2_pre_write_overlap_check (qcow2-refcount.c:2226): wrap the overlap
check; a detected overlap marks the image corrupt and becomes -EIO. -/
def qcow2_pre_write_overlap_check (s : QState) (ign : Nat) (offset size : Int) :
    Int × QState :=
  let ret := qcow2_check_metadata_overlap s ign offset size
  if ret < 0 then (ret, s)
  else if 0 < ret then (-errno_eio, signal_corruption s)
  else (0, s)

/-- The counters of BdrvCheckResult used by the refcount checker. -/
structure CheckRes where
  check_errors : Nat
  corruptions : Nat
  corruptions_fixed : Nat
  leaks : Nat
  leaks_fixed : Nat
deriving DecidableEq

/-- Accumulator of compare_refcounts: state, result counters, the rebuild
flag and the highest in-use cluster seen. -/
structure CmpAcc where
  st : QState
  res : CheckRes
  rebuild : Bool
  highest_cluster : Nat

/-- BDRV_FIX_LEAKS (bit 0) and BDRV_FIX_ERRORS (bit 1) of BdrvCheckMode. -/
def bdrv_fix_leaks : Nat := 1

def bdrv_fix_errors : Nat := 2

/-- One iteration of the compare_refcounts loop (qcow2-refcount.c:1632-1681)
for cluster `i` with independently computed refcount `rc2`. -/
def compare_step (fuel : Nat) (fix : Nat) (acc : CmpAcc) (i rc2 : Nat) : CmpAcc :=
  let g := get_refcount acc.st i
  if g.ret < 0 then
    { acc with
      st := g.st
      res := { acc.res with check_errors := acc.res.check_errors + 1 } }
  else
    let rc1 := g.ret.toNat
    let acc1 : CmpAcc :=
      { acc with
        st := g.st
        highest_cluster := if 0 < rc1 ∨ 0 < rc2 then i else acc.highest_cluster }
    if rc1 = rc2 then acc1
    else
      let rebuild1 := if rc1 = 0 then true else acc1.rebuild
      let fixing : Option Bool :=
        if rc1 = 0 then none
        else if rc2 < rc1 ∧ fix % 2 = 1 then some true
        else if rc1 < rc2 ∧ fix / 2 % 2 = 1 then some false
        else none
      match fixing with
      | some isLeak =>
          let u := update_refcount_parts fuel acc1.st
            ((i * cluster_size acc1.st : Nat) : Int) 1 ((rc2 : Int) - (rc1 : Int)) .always
          if 0 ≤ u.1 then
            { acc1 with
              st := u.2.1
              rebuild := rebuild1
              res :=
                if isLeak then { acc1.res with leaks_fixed := acc1.res.leaks_fixed + 1 }
                else { acc1.res with corruptions_fixed := acc1.res.corruptions_fixed + 1 } }
          else
            { acc1 with
              st := u.2.1
              rebuild := rebuild1
              res :=
                if rc1 < rc2 then { acc1.res with corruptions := acc1.res.corruptions + 1 }
                else { acc1.res with leaks := acc1.res.leaks + 1 } }
      | none =>
          { acc1 with
            rebuild := rebuild1
            res :=
              if rc1 < rc2 then { acc1.res with corruptions := acc1.res.corruptions + 1 }
              else { acc1.res with leaks := acc1.res.leaks + 1 } }

/-- compare_refcounts (qcow2-refcount.c:1623): compare the stored refcount of
every cluster against the computed one, counting and optionally repairing
mismatches.  `acc0` carries the counters accumulated by earlier passes. -/
def compare_refcounts (fuel : Nat) (acc0 : CmpAcc) (fix : Nat) (computed : List Nat) :
    CmpAcc :=
  (List.range computed.length).foldl
    (fun acc i => compare_step fuel fix acc i (computed.getD i 0))
    { acc0 with highest_cluster := 0 }

/-! Helper lemmas. -/

theorem process_discards_issued_of_nonneg {ret : Int} (h : 0 ≤ ret) :
    ∀ l, process_discards_issued ret l = l := by
  intro l
  induction l with
  | nil => rfl
  | cons d rest ih => simp [process_discards_issued, h, ih]

theorem process_discards_issued_of_neg {ret : Int} (h : ret < 0) :
    ∀ l, process_discards_issued ret l = [] := by
  intro l
  have h2 : ¬ (0 : Int) ≤ ret := by omega
  induction l with
  | nil => rfl
  | cons d rest ih => simp [process_discards_issued, h2, ih]

theorem get_refcount_ret_cases (s : QState) (ci : Nat) :
    (get_refcount s ci).ret = -errno_eio ∨ 0 ≤ (get_refcount s ci).ret := by
  simp only [get_refcount]
  split_ifs
  · right; simp
  · left; simp
  · right; simp [Int.natCast_nonneg]
  · right; simp

theorem noref_run_err_eio :
    ∀ (n : Nat) (s : QState) (e : Int) (s1 : QState),
      noref_run s n = .err e s1 → e = -errno_eio := by
  intro n
  induction n with
  | zero => intro s e s1 h; simp [noref_run] at h
  | succ n ih =>
      intro s e s1 h
      simp only [noref_run] at h
      by_cases h1 : (get_refcount { s with free_cluster_index := s.free_cluster_index + 1 }
          s.free_cluster_index).ret < 0
      · rw [if_pos h1] at h
        injection h with he hs
        rcases get_refcount_ret_cases
          { s with free_cluster_index := s.free_cluster_index + 1 }
          s.free_cluster_index with hc | hc
        · rw [← he]; exact hc
        · exfalso; omega
      · rw [if_neg h1] at h
        by_cases h2 : (get_refcount { s with free_cluster_index := s.free_cluster_index + 1 }
            s.free_cluster_index).ret ≠ 0
        · rw [if_pos h2] at h
          exact absurd h (by simp)
        · rw [if_neg h2] at h
          exact ih _ _ _ h

theorem noref_retry_ne_eagain (fuel : Nat) :
    ∀ (s : QState) (nb : Nat), (noref_retry fuel s nb).1 ≠ -errno_eagain := by
  induction fuel with
  | zero => intro s nb; simp [noref_retry, errno_enofuel, errno_eagain]
  | succ f ih =>
      intro s nb
      unfold noref_retry
      cases hr : noref_run s nb with
      | ok s1 =>
          simp only
          intro h
          have : (0 : Int) ≤ ((s1.free_cluster_index - nb) * cluster_size s1 : Nat) :=
            Int.natCast_nonneg _
          simp [errno_eagain] at h
          omega
      | err e s1 =>
          simp only
          have he := noref_run_err_eio nb s e s1 hr
          simp [he, errno_eio, errno_eagain]
      | busy s1 => exact ih s1 nb

theorem alloc_clusters_noref_ne_eagain (fuel : Nat) (s : QState) (size : Nat) :
    (alloc_clusters_noref fuel s size).1 ≠ -errno_eagain := by
  unfold alloc_clusters_noref
  apply noref_retry_ne_eagain

theorem qcow2_alloc_clusters_ne_eagain (fuel : Nat) :
    ∀ (s : QState) (size : Nat), (qcow2_alloc_clusters fuel s size).1 ≠ -errno_eagain := by
  induction fuel with
  | zero => intro s size; simp [qcow2_alloc_clusters, errno_enofuel, errno_eagain]
  | succ f ih =>
      intro s size
      unfold qcow2_alloc_clusters
      simp only
      split_ifs with h1 h2 h3
      · exact alloc_clusters_noref_ne_eagain f s size
      · exact ih _ size
      · exact h2
      · intro h
        have h4 : (0 : Int) ≤ (alloc_clusters_noref f s size).1 := by omega
        simp [errno_eagain] at h
        omega

theorem alloc_at_scan_err :
    ∀ (n : Nat) (s : QState) (ci : Nat) (e : Int × QState),
      alloc_at_scan s ci n = .inl e → e.1 = -errno_eio := by
  intro n
  induction n with
  | zero => intro s ci e h; simp [alloc_at_scan] at h
  | succ n ih =>
      intro s ci e h
      simp only [alloc_at_scan] at h
      by_cases h1 : (get_refcount s ci).ret < 0
      · rw [if_pos h1] at h
        injection h with he
        rcases get_refcount_ret_cases s ci with hc | hc
        · rw [← he]; exact hc
        · exfalso; omega
      · rw [if_neg h1] at h
        by_cases h2 : (get_refcount s ci).ret ≠ 0
        · rw [if_pos h2] at h
          exact absurd h (by simp)
        · rw [if_neg h2] at h
          revert h
          cases hrec : alloc_at_scan (get_refcount s ci).st (ci + 1) n with
          | inl e2 =>
              intro h
              injection h with he
              rw [← he]
              exact ih _ _ _ hrec
          | inr p =>
              obtain ⟨ps, pi⟩ := p
              intro h
              exact absurd h (by simp)

theorem qcow2_alloc_clusters_at_ne_eagain (fuel : Nat) :
    ∀ (s : QState) (offset nb : Nat),
      (qcow2_alloc_clusters_at fuel s offset nb).1 ≠ -errno_eagain := by
  induction fuel with
  | zero => intro s o nb; simp [qcow2_alloc_clusters_at, errno_enofuel, errno_eagain]
  | succ f ih =>
      intro s o nb
      unfold qcow2_alloc_clusters_at
      split_ifs with h0
      · simp [errno_eagain]
      · simp only
        cases hs : alloc_at_scan s (o / cluster_size s) nb with
        | inl e =>
            have := alloc_at_scan_err nb s (o / cluster_size s) e hs
            simp [this, errno_eio, errno_eagain]
        | inr p =>
            simp only
            split_ifs with h2 h3
            · exact ih _ o nb
            · exact h2
            · intro h
              simp [errno_eagain] at h

theorem getD_set_self (l : List Nat) (i v : Nat) (h : i < l.length) :
    (l.set i v).getD i 0 = v := by
  rw [List.getD_eq_getElem?_getD, List.getElem?_set_self]
  · simp
  · exact h

theorem getD_set_ne (l : List Nat) {i j : Nat} (v : Nat) (h : i ≠ j) :
    (l.set i v).getD j 0 = l.getD j 0 := by
  rw [List.getD_eq_getElem?_getD, List.getElem?_set_ne h, ← List.getD_eq_getElem?_getD]

theorem cluster_size_congr {s t : QState} (h : t.cluster_bits = s.cluster_bits) :
    cluster_size t = cluster_size s := by
  unfold cluster_size
  rw [h]

theorem rbs_congr {s t : QState} (h : t.cluster_bits = s.cluster_bits) :
    refcount_block_size t = refcount_block_size s := by
  unfold refcount_block_size refcount_block_bits
  rw [h]

theorem in_same_congr {s t : QState} (h : t.cluster_bits = s.cluster_bits) (x y : Nat) :
    in_same_refcount_block t x y = in_same_refcount_block s x y := by
  unfold in_same_refcount_block refcount_block_bits
  rw [h]

theorem cluster_size_pos (s : QState) : 0 < cluster_size s := by
  unfold cluster_size
  positivity

theorem get_refcount_st_cases (s : QState) (ci : Nat) :
    (get_refcount s ci).st = s ∨ (get_refcount s ci).st = signal_corruption s := by
  simp only [get_refcount]
  split_ifs
  · exact .inl rfl
  · exact .inr rfl
  · exact .inl rfl
  · exact .inl rfl

theorem get_refcount_st_core (s : QState) (ci : Nat) :
    (get_refcount s ci).st.refcount_table = s.refcount_table ∧
    (get_refcount s ci).st.blocks = s.blocks ∧
    (get_refcount s ci).st.cluster_bits = s.cluster_bits := by
  rcases get_refcount_st_cases s ci with h | h <;> rw [h] <;> exact ⟨rfl, rfl, rfl⟩

/-- The state carried in any outcome of the alloc_clusters_noref scan. -/
def scanState : ScanOut → QState
  | .ok s => s
  | .err _ s => s
  | .busy s => s

theorem noref_run_core :
    ∀ (n : Nat) (s : QState),
      (scanState (noref_run s n)).refcount_table = s.refcount_table ∧
      (scanState (noref_run s n)).blocks = s.blocks ∧
      (scanState (noref_run s n)).cluster_bits = s.cluster_bits := by
  intro n
  induction n with
  | zero => intro s; exact ⟨rfl, rfl, rfl⟩
  | succ n ih =>
      intro s
      simp only [noref_run]
      by_cases h1 : (get_refcount { s with free_cluster_index := s.free_cluster_index + 1 }
          s.free_cluster_index).ret < 0
      · rw [if_pos h1]
        obtain ⟨ht, hb, hc⟩ := get_refcount_st_core
          { s with free_cluster_index := s.free_cluster_index + 1 } s.free_cluster_index
        exact ⟨ht, hb, hc⟩
      · rw [if_neg h1]
        by_cases h2 : (get_refcount { s with free_cluster_index := s.free_cluster_index + 1 }
            s.free_cluster_index).ret ≠ 0
        · rw [if_pos h2]
          obtain ⟨ht, hb, hc⟩ := get_refcount_st_core
            { s with free_cluster_index := s.free_cluster_index + 1 } s.free_cluster_index
          exact ⟨ht, hb, hc⟩
        · rw [if_neg h2]
          obtain ⟨t1, b1, c1⟩ := ih (get_refcount
            { s with free_cluster_index := s.free_cluster_index + 1 } s.free_cluster_index).st
          obtain ⟨t2, b2, c2⟩ := get_refcount_st_core
            { s with free_cluster_index := s.free_cluster_index + 1 } s.free_cluster_index
          exact ⟨t1.trans t2, b1.trans b2, c1.trans c2⟩

theorem noref_retry_core :
    ∀ (fuel : Nat) (s : QState) (nb : Nat),
      (noref_retry fuel s nb).2.refcount_table = s.refcount_table ∧
      (noref_retry fuel s nb).2.blocks = s.blocks ∧
      (noref_retry fuel s nb).2.cluster_bits = s.cluster_bits ∧
      (0 ≤ (noref_retry fuel s nb).1 →
        (noref_retry fuel s nb).1.toNat % cluster_size s = 0) := by
  intro fuel
  induction fuel with
  | zero =>
      intro s nb
      refine ⟨rfl, rfl, rfl, fun h => ?_⟩
      norm_num [noref_retry, errno_enofuel] at h
  | succ f ih =>
      intro s nb
      cases hr : noref_run s nb with
      | ok s1 =>
          have hcore := noref_run_core nb s
          rw [hr] at hcore
          obtain ⟨ht, hb, hc⟩ := hcore
          have hcs : cluster_size s1 = cluster_size s := cluster_size_congr hc
          simp only [noref_retry, hr]
          refine ⟨ht, hb, hc, fun _ => ?_⟩
          have h3 : (((s1.free_cluster_index - nb) * cluster_size s1 : Nat) : Int).toNat =
              (s1.free_cluster_index - nb) * cluster_size s1 := Int.toNat_natCast _
          rw [h3, hcs]
          exact Nat.mul_mod_left _ _
      | err e s1 =>
          have hcore := noref_run_core nb s
          rw [hr] at hcore
          obtain ⟨ht, hb, hc⟩ := hcore
          have he := noref_run_err_eio nb s e s1 hr
          simp only [noref_retry, hr]
          refine ⟨ht, hb, hc, fun h => ?_⟩
          rw [he] at h
          norm_num [errno_eio] at h
      | busy s1 =>
          have hcore := noref_run_core nb s
          rw [hr] at hcore
          obtain ⟨ht, hb, hc⟩ := hcore
          have hih := ih s1 nb
          have hcs : cluster_size s1 = cluster_size s := cluster_size_congr hc
          simp only [noref_retry, hr]
          refine ⟨hih.1.trans ht, hih.2.1.trans hb, hih.2.2.1.trans hc, fun h => ?_⟩
          have h2 := hih.2.2.2 h
          rwa [hcs] at h2

theorem alloc_clusters_noref_core (fuel : Nat) (s : QState) (size : Nat) :
    (alloc_clusters_noref fuel s size).2.refcount_table = s.refcount_table ∧
    (alloc_clusters_noref fuel s size).2.blocks = s.blocks ∧
    (alloc_clusters_noref fuel s size).2.cluster_bits = s.cluster_bits ∧
    (0 ≤ (alloc_clusters_noref fuel s size).1 →
      (alloc_clusters_noref fuel s size).1.toNat % cluster_size s = 0) := by
  simp only [alloc_clusters_noref]
  by_cases hcd : s.cache_discards
  · rw [if_pos hcd]
    have h := noref_retry_core fuel (qcow2_process_discards s 0).1
      (size_to_clusters (qcow2_process_discards s 0).1 size)
    exact ⟨h.1, h.2.1, h.2.2.1, h.2.2.2⟩
  · rw [if_neg hcd]
    exact noref_retry_core fuel s (size_to_clusters s size)

theorem nrts_fix_ge :
    ∀ (f minc rtc : Nat), 1 ≤ rtc → minc ≤ f + rtc → minc ≤ nrts_fix f minc rtc := by
  intro f
  induction f with
  | zero =>
      intro minc rtc h1 h2
      simp only [nrts_fix]
      omega
  | succ f ih =>
      intro minc rtc h1 h2
      simp only [nrts_fix]
      split_ifs with h
      · apply ih
        · omega
        · omega
      · omega

theorem next_refcount_table_size_ge (s : QState) (m : Nat) :
    m + 1 ≤ next_refcount_table_size s m := by
  unfold next_refcount_table_size
  have hk : 0 < 2 ^ (s.cluster_bits - 3) := by positivity
  have h1 : m / 2 ^ (s.cluster_bits - 3) + 1 ≤
      nrts_fix (m / 2 ^ (s.cluster_bits - 3) + 1 + 1) (m / 2 ^ (s.cluster_bits - 3) + 1)
        (max 1 (s.refcount_table.length / 2 ^ (s.cluster_bits - 3))) := by
    apply nrts_fix_ge
    · exact le_max_left 1 _
    · omega
  have h2 : m + 1 ≤ (m / 2 ^ (s.cluster_bits - 3) + 1) * 2 ^ (s.cluster_bits - 3) := by
    have hmod := Nat.div_add_mod m (2 ^ (s.cluster_bits - 3))
    have hlt : m % 2 ^ (s.cluster_bits - 3) < 2 ^ (s.cluster_bits - 3) := Nat.mod_lt _ hk
    have hring : (m / 2 ^ (s.cluster_bits - 3) + 1) * 2 ^ (s.cluster_bits - 3) =
        m / 2 ^ (s.cluster_bits - 3) * 2 ^ (s.cluster_bits - 3) +
          2 ^ (s.cluster_bits - 3) := by ring
    rw [hring]
    linarith
  calc m + 1 ≤ (m / 2 ^ (s.cluster_bits - 3) + 1) * 2 ^ (s.cluster_bits - 3) := h2
  _ ≤ _ := Nat.mul_le_mul_right _ h1

theorem fold_set_length (t : List Nat) (bu mo cs : Nat) :
    ∀ bc, ((List.range bc).foldl (fun l j => l.set (bu + j) (mo + j * cs)) t).length =
      t.length := by
  intro bc
  induction bc with
  | zero => rfl
  | succ n ih =>
      rw [List.range_succ, List.foldl_append]
      simp only [List.foldl_cons, List.foldl_nil, List.length_set]
      exact ih

theorem fold_set_getD_low (t : List Nat) (bu mo cs i : Nat) (h : i < bu) :
    ∀ bc, ((List.range bc).foldl (fun l j => l.set (bu + j) (mo + j * cs)) t).getD i 0 =
      t.getD i 0 := by
  intro bc
  induction bc with
  | zero => rfl
  | succ n ih =>
      rw [List.range_succ, List.foldl_append]
      simp only [List.foldl_cons, List.foldl_nil]
      rw [getD_set_ne _ _ (by omega : bu + n ≠ i)]
      exact ih

theorem fold_set_getD_at (t : List Nat) (bu mo cs : Nat) :
    ∀ bc j, j < bc → bu + j < t.length →
      ((List.range bc).foldl (fun l j => l.set (bu + j) (mo + j * cs)) t).getD (bu + j) 0 =
        mo + j * cs := by
  intro bc
  induction bc with
  | zero => intro j hj; omega
  | succ n ih =>
      intro j hj hlen
      rw [List.range_succ, List.foldl_append]
      simp only [List.foldl_cons, List.foldl_nil]
      by_cases hjn : j = n
      · subst hjn
        apply getD_set_self
        rw [fold_set_length]
        exact hlen
      · rw [getD_set_ne _ _ (by omega : bu + n ≠ bu + j)]
        exact ih j (by omega) hlen

/-! Claim theorems. -/

/-- C2: the public allocators qcow2_alloc_clusters and
qcow2_alloc_clusters_at never return the restart signal -EAGAIN: the retry
loops re-run the free-cluster search and the refcount update until the
result is a non-negative allocation or a hard error. -/
theorem public_allocators_never_return_eagain (fuel : Nat) (s : QState)
    (size offset nb : Nat) :
    (qcow2_alloc_clusters fuel s size).1 ≠ -errno_eagain ∧
    (qcow2_alloc_clusters_at fuel s offset nb).1 ≠ -errno_eagain :=
  ⟨qcow2_alloc_clusters_ne_eagain fuel s size,
    qcow2_alloc_clusters_at_ne_eagain fuel s offset nb⟩

/-- If a refcount-table entry read with a zero default is non-zero, the
index is within the table. -/
theorem getD_ne_zero_lt {l : List Nat} {n : Nat} (h : l.getD n 0 ≠ 0) : n < l.length := by
  by_contra hc
  exact h (List.getD_eq_default _ _ (by omega))

theorem get_refcount_free_case (s : QState) (ci : Nat)
    (h : s.refcount_table.length ≤ ci / refcount_block_size s ∨
      s.refcount_table.getD (ci / refcount_block_size s) 0 = 0) :
    get_refcount s ci = ⟨0, s, 0⟩ := by
  simp only [get_refcount]
  by_cases h1 : ci / refcount_block_size s < s.refcount_table.length
  · rw [if_pos h1]
    have h0 : s.refcount_table.getD (ci / refcount_block_size s) 0 = 0 := by
      rcases h with h | h
      · omega
      · exact h
    rw [if_pos h0]
  · rw [if_neg h1]

theorem get_refcount_unaligned_case (s : QState) (ci : Nat)
    (hne : s.refcount_table.getD (ci / refcount_block_size s) 0 ≠ 0)
    (hal : s.refcount_table.getD (ci / refcount_block_size s) 0 % cluster_size s ≠ 0) :
    get_refcount s ci = ⟨-errno_eio, signal_corruption s, 0⟩ := by
  simp only [get_refcount]
  rw [if_pos (getD_ne_zero_lt hne), if_neg hne, if_pos hal]

theorem get_refcount_read_case (s : QState) (ci : Nat)
    (hne : s.refcount_table.getD (ci / refcount_block_size s) 0 ≠ 0)
    (hal : s.refcount_table.getD (ci / refcount_block_size s) 0 % cluster_size s = 0) :
    get_refcount s ci =
      ⟨(s.blocks (s.refcount_table.getD (ci / refcount_block_size s) 0)
          (ci % refcount_block_size s) : Int), s, 1⟩ := by
  simp only [get_refcount]
  rw [if_pos (getD_ne_zero_lt hne), if_neg hne, if_neg (fun hx => hx hal)]

/-- C3: get_refcount returns 0 without touching the block cache when the
table index is out of bounds or the table entry is zero; returns -EIO with
corruption signaled when the stored block offset is not cluster-aligned;
otherwise returns the stored 16-bit counter; and it never modifies the
refcount table, the counters, or the allocator state. -/
theorem get_refcount_spec (s : QState) (cluster_index : Nat) :
    (s.refcount_table.length ≤ cluster_index / refcount_block_size s ∨
        s.refcount_table.getD (cluster_index / refcount_block_size s) 0 = 0 →
      get_refcount s cluster_index = ⟨0, s, 0⟩) ∧
    (s.refcount_table.getD (cluster_index / refcount_block_size s) 0 ≠ 0 →
        s.refcount_table.getD (cluster_index / refcount_block_size s) 0 %
          cluster_size s ≠ 0 →
      get_refcount s cluster_index = ⟨-errno_eio, signal_corruption s, 0⟩) ∧
    (s.refcount_table.getD (cluster_index / refcount_block_size s) 0 ≠ 0 →
        s.refcount_table.getD (cluster_index / refcount_block_size s) 0 %
          cluster_size s = 0 →
      get_refcount s cluster_index =
        ⟨(s.blocks (s.refcount_table.getD (cluster_index / refcount_block_size s) 0)
            (cluster_index % refcount_block_size s) : Int), s, 1⟩) ∧
    ((get_refcount s cluster_index).st.refcount_table = s.refcount_table ∧
      (get_refcount s cluster_index).st.blocks = s.blocks ∧
      (get_refcount s cluster_index).st.free_cluster_index = s.free_cluster_index ∧
      (get_refcount s cluster_index).st.discards = s.discards) := by
  refine ⟨get_refcount_free_case s cluster_index,
    get_refcount_unaligned_case s cluster_index,
    get_refcount_read_case s cluster_index, ?_⟩
  simp only [get_refcount]
  split_ifs <;> exact ⟨rfl, rfl, rfl, rfl⟩

/-- C9: qcow2_process_discards always drains the queue (and changes nothing
else), forwards each queued region to the backend discard iff the triggering
result is non-negative, and never propagates a discard failure. -/
theorem qcow2_process_discards_spec (s : QState) (ret : Int) :
    (qcow2_process_discards s ret).1 = { s with discards := [] } ∧
    (0 ≤ ret → (qcow2_process_discards s ret).2 = s.discards) ∧
    (ret < 0 → (qcow2_process_discards s ret).2 = []) :=
  ⟨rfl, fun h => process_discards_issued_of_nonneg h s.discards,
    fun h => process_discards_issued_of_neg h s.discards⟩

/-- C10: a zero-sized range never reports a metadata overlap, whatever the
offset and ignore mask, and the pre-write wrapper succeeds on it without
changing the state. -/
theorem overlap_check_empty_range (s : QState) (ign : Nat) (offset : Int) :
    qcow2_check_metadata_overlap s ign offset 0 = 0 ∧
    qcow2_pre_write_overlap_check s ign offset 0 = (0, s) := by
  have h : qcow2_check_metadata_overlap s ign offset 0 = 0 := by
    simp [qcow2_check_metadata_overlap]
  refine ⟨h, ?_⟩
  simp [qcow2_pre_write_overlap_check, h]

/-- A concrete state exercising the C1 theorem: an empty refcount table, so
that touching cluster 1 bootstraps a self-describing block and must grow
the refcount table. -/
def stateC1 : QState where
  cluster_bits := 9
  refcount_table := []
  refcount_table_offset := 4096
  free_cluster_index := 1
  blocks := fun _ _ => 0
  discards := []
  cache_discards := false
  discard_passthrough := fun _ => false
  overlap_check := 255
  corrupted := false
  l1_table_offset := 0
  l1_size := 0
  l1_table := none
  snapshots_offset := 0
  snapshots_size := 0
  snapshots := none

/-- A concrete state exercising the C9 theorem. -/
def stateC9 : QState where
  cluster_bits := 9
  refcount_table := [512]
  refcount_table_offset := 4096
  free_cluster_index := 2
  blocks := fun _ _ => 0
  discards := [⟨1024, 512⟩, ⟨4096, 1024⟩]
  cache_discards := false
  discard_passthrough := fun _ => false
  overlap_check := 255
  corrupted := false
  l1_table_offset := 0
  l1_size := 0
  l1_table := none
  snapshots_offset := 0
  snapshots_size := 0
  snapshots := none

theorem qcow2_process_discards_spec_witness :
    (qcow2_process_discards stateC9 0).2 = stateC9.discards ∧
    (qcow2_process_discards stateC9 (-1)).2 = [] :=
  ⟨(qcow2_process_discards_spec stateC9 0).2.1 (by decide),
    (qcow2_process_discards_spec stateC9 (-1)).2.2 (by decide)⟩

/-- A concrete state exercising the C3 theorem: entry 0 absent, entry for
table index 1 unaligned, entry for table index 2 aligned. -/
def stateC3 : QState :=
  { stateC9 with
    refcount_table := [0, 768, 1024]
    blocks := fun o i => if o = 1024 ∧ i = 3 then 9 else 0
    discards := [] }

theorem get_refcount_spec_witness :
    get_refcount stateC3 0 = ⟨0, stateC3, 0⟩ ∧
    get_refcount stateC3 256 = ⟨-errno_eio, signal_corruption stateC3, 0⟩ ∧
    get_refcount stateC3 515 = ⟨9, stateC3, 1⟩ :=
  ⟨(get_refcount_spec stateC3 0).1 (by right; decide),
    (get_refcount_spec stateC3 256).2.1 (by decide) (by decide),
    (get_refcount_spec stateC3 515).2.2.1 (by decide) (by decide)⟩

/-- C5: the new refcount table built by the growth path of
alloc_refcount_block keeps every entry of the old in-memory table unchanged
at the same logical index, and additionally gains the entry for the
triggering block at its index and one entry per new self-describing
metadata block.  The hypotheses record how the growth code computes each
quantity, with `hfix` stating that the size loop reached its fixed point. -/
theorem refcount_table_growth_preserves (s : QState)
    (cluster_index new_block fuelFix ti blocks_used table_size table_clusters
      blocks_clusters meta_offset : Nat)
    (hti : ti = cluster_index / refcount_block_size s)
    (hout : s.refcount_table.length ≤ ti)
    (hbu : blocks_used = (max (cluster_index + 1) (new_block / cluster_size s + 1) +
      refcount_block_size s - 1) / refcount_block_size s)
    (hts : table_size = grow_ts_fix fuelFix s blocks_used
      (next_refcount_table_size s (blocks_used + 1)))
    (htc : table_clusters = size_to_clusters s (table_size * 8))
    (hbc : blocks_clusters = 1 + (table_clusters + refcount_block_size s - 1) /
      refcount_block_size s)
    (hfix : next_refcount_table_size s
      (blocks_used + (table_clusters + blocks_clusters + refcount_block_size s - 1) /
        refcount_block_size s) = table_size) :
    (grown_table s ti new_block blocks_used blocks_clusters table_size
      meta_offset).length = table_size ∧
    (∀ i, i < s.refcount_table.length →
      (grown_table s ti new_block blocks_used blocks_clusters table_size
        meta_offset).getD i 0 = s.refcount_table.getD i 0) ∧
    (grown_table s ti new_block blocks_used blocks_clusters table_size
      meta_offset).getD ti 0 = new_block ∧
    (∀ j, j < blocks_clusters →
      (grown_table s ti new_block blocks_used blocks_clusters table_size
        meta_offset).getD (blocks_used + j) 0 = meta_offset + j * cluster_size s) := by
  have hrbspos : 0 < refcount_block_size s := by unfold refcount_block_size; positivity
  have htibu : ti < blocks_used := by
    have hmax := le_max_left (cluster_index + 1) (new_block / cluster_size s + 1)
    have h2 : (cluster_index + 1 + refcount_block_size s - 1) / refcount_block_size s ≤
        blocks_used := by
      rw [hbu]
      exact Nat.div_le_div_right (by omega)
    have h3 : cluster_index + 1 + refcount_block_size s - 1 =
        cluster_index + refcount_block_size s := by omega
    rw [h3, Nat.add_div_right _ hrbspos] at h2
    omega
  have hm : blocks_used +
      (table_clusters + blocks_clusters + refcount_block_size s - 1) /
        refcount_block_size s + 1 ≤ table_size := by
    rw [← hfix]
    exact next_refcount_table_size_ge s _
  have hbcle : blocks_clusters ≤
      (table_clusters + blocks_clusters + refcount_block_size s - 1) /
        refcount_block_size s + 1 := by
    have hmono : (table_clusters + refcount_block_size s - 1) / refcount_block_size s ≤
        (table_clusters + blocks_clusters + refcount_block_size s - 1) /
          refcount_block_size s := Nat.div_le_div_right (by omega)
    omega
  have hroom : blocks_used + blocks_clusters ≤ table_size := by linarith
  have hbc1 : 1 ≤ blocks_clusters := by
    rw [hbc]
    exact Nat.le_add_right 1 _
  have hlen_le : s.refcount_table.length ≤ table_size := by omega
  have hbaselen :
      (s.refcount_table ++
        List.replicate (table_size - s.refcount_table.length) 0).length = table_size := by
    simp only [List.length_append, List.length_replicate]
    omega
  have htake :
      (s.refcount_table ++
        List.replicate (table_size - s.refcount_table.length) 0).take table_size =
      s.refcount_table ++ List.replicate (table_size - s.refcount_table.length) 0 :=
    List.take_of_length_le (by rw [hbaselen])
  have ht1len :
      ((s.refcount_table ++
        List.replicate (table_size - s.refcount_table.length) 0).set ti
          new_block).length = table_size := by
    rw [List.length_set, hbaselen]
  refine ⟨?_, ?_, ?_, ?_⟩
  · simp only [grown_table]
    rw [htake, fold_set_length, ht1len]
  · intro i hi
    simp only [grown_table]
    rw [htake, fold_set_getD_low _ _ _ _ i (by omega),
      getD_set_ne _ _ (by omega : ti ≠ i), List.getD_append _ _ _ _ hi]
  · simp only [grown_table]
    rw [htake, fold_set_getD_low _ _ _ _ ti htibu,
      getD_set_self _ _ _ (by rw [hbaselen]; omega)]
  · intro j hj
    simp only [grown_table]
    rw [htake, fold_set_getD_at _ _ _ _ _ j hj (by rw [ht1len]; omega)]

theorem refcount_table_growth_preserves_witness :
    (grown_table stateC9 1 1024 2 2 64 262144).getD 0 0 =
      stateC9.refcount_table.getD 0 0 ∧
    (grown_table stateC9 1 1024 2 2 64 262144).getD 1 0 = 1024 ∧
    (grown_table stateC9 1 1024 2 2 64 262144).getD (2 + 1) 0 = 262144 + 1 * 512 :=
  ⟨(refcount_table_growth_preserves stateC9 256 1024 10 1 2 64 1 2 262144
      (by decide) (by decide) (by decide) (by decide) (by decide) (by decide)
      (by decide)).2.1 0 (by decide),
    (refcount_table_growth_preserves stateC9 256 1024 10 1 2 64 1 2 262144
      (by decide) (by decide) (by decide) (by decide) (by decide) (by decide)
      (by decide)).2.2.1,
    (refcount_table_growth_preserves stateC9 256 1024 10 1 2 64 1 2 262144
      (by decide) (by decide) (by decide) (by decide) (by decide) (by decide)
      (by decide)).2.2.2 1 (by decide)⟩

/-- A state whose active L1 table and refcount table both intersect a write
range, used to refute the unrestricted reading of C8: the overlap check
returns the first overlapping region in check order, not necessarily the
refcount-table tag. -/
def stateC8 : QState where
  cluster_bits := 9
  refcount_table := [0]
  refcount_table_offset := 1024
  free_cluster_index := 0
  blocks := fun _ _ => 0
  discards := []
  cache_discards := false
  discard_passthrough := fun _ => false
  overlap_check := 255
  corrupted := false
  l1_table_offset := 512
  l1_size := 1
  l1_table := some [0]
  snapshots_offset := 0
  snapshots_size := 0
  snapshots := none

/-- Counterexample to C8 as stated: the write range [512, 1536) intersects
the live refcount table extent [1024, 1032) with the refcount-table check
enabled, yet qcow2_check_metadata_overlap returns the active-L1 tag (2),
because the active L1 table is checked first. -/
theorem check_overlap_not_always_refcount_table :
    qcow2_check_metadata_overlap stateC8 0 512 1024 = qcow2_ol_active_l1 ∧
    qcow2_ol_active_l1 ≠ qcow2_ol_refcount_table ∧
    chk_bit stateC8.overlap_check 0 3 = true ∧
    stateC8.refcount_table.length ≠ 0 ∧
    ranges_overlap ((512 : Int).toNat / cluster_size stateC8 * cluster_size stateC8)
      (((512 : Int).toNat % cluster_size stateC8 + (1024 : Int).toNat +
          cluster_size stateC8 - 1) / cluster_size stateC8 * cluster_size stateC8)
      stateC8.refcount_table_offset (stateC8.refcount_table.length * 8) = true := by
  refine ⟨?_, by decide, by decide, by decide, by decide⟩
  decide

/-- C8 (amended): qcow2_check_metadata_overlap returns the refcount-table
tag when the cluster-rounded range intersects the live refcount table's
extent, that check is unmasked, and no earlier-checked region (header
cluster, active L1 table) fires; it returns 0 when the range lies outside
every tracked metadata region; and qcow2_pre_write_overlap_check turns any
positive overlap into marking the image corrupt plus -EIO, and returns 0
unchanged when no overlap was found. -/
theorem qcow2_check_metadata_overlap_spec (s : QState) (ign : Nat) (offset size : Int) :
    (0 < size →
      ¬(chk_bit s.overlap_check ign 0 ∧ offset < (cluster_size s : Int)) →
      ¬(chk_bit s.overlap_check ign 1 ∧ s.l1_size ≠ 0 ∧
        ranges_overlap (offset.toNat / cluster_size s * cluster_size s)
          ((offset.toNat % cluster_size s + size.toNat + cluster_size s - 1) /
            cluster_size s * cluster_size s) s.l1_table_offset (s.l1_size * 8)) →
      chk_bit s.overlap_check ign 3 = true →
      s.refcount_table.length ≠ 0 →
      ranges_overlap (offset.toNat / cluster_size s * cluster_size s)
        ((offset.toNat % cluster_size s + size.toNat + cluster_size s - 1) /
          cluster_size s * cluster_size s) s.refcount_table_offset
        (s.refcount_table.length * 8) = true →
      qcow2_check_metadata_overlap s ign offset size = qcow2_ol_refcount_table) ∧
    (¬(chk_bit s.overlap_check ign 0 ∧ offset < (cluster_size s : Int)) →
      ¬(chk_bit s.overlap_check ign 1 ∧ s.l1_size ≠ 0 ∧
        ranges_overlap (offset.toNat / cluster_size s * cluster_size s)
          ((offset.toNat % cluster_size s + size.toNat + cluster_size s - 1) /
            cluster_size s * cluster_size s) s.l1_table_offset (s.l1_size * 8)) →
      ¬(chk_bit s.overlap_check ign 3 ∧ s.refcount_table.length ≠ 0 ∧
        ranges_overlap (offset.toNat / cluster_size s * cluster_size s)
          ((offset.toNat % cluster_size s + size.toNat + cluster_size s - 1) /
            cluster_size s * cluster_size s) s.refcount_table_offset
          (s.refcount_table.length * 8)) →
      ¬(chk_bit s.overlap_check ign 5 ∧ s.snapshots_size ≠ 0 ∧
        ranges_overlap (offset.toNat / cluster_size s * cluster_size s)
          ((offset.toNat % cluster_size s + size.toNat + cluster_size s - 1) /
            cluster_size s * cluster_size s) s.snapshots_offset s.snapshots_size) →
      ¬(chk_bit s.overlap_check ign 6 ∧
        (s.snapshots.getD []).any (fun sn =>
          decide (sn.l1_size ≠ 0) &&
          ranges_overlap (offset.toNat / cluster_size s * cluster_size s)
            ((offset.toNat % cluster_size s + size.toNat + cluster_size s - 1) /
              cluster_size s * cluster_size s) sn.l1_table_offset (sn.l1_size * 8))) →
      ¬(chk_bit s.overlap_check ign 2 ∧
        (s.l1_table.getD []).any (fun e =>
          decide (l1e_offset_mask e ≠ 0) &&
          ranges_overlap (offset.toNat / cluster_size s * cluster_size s)
            ((offset.toNat % cluster_size s + size.toNat + cluster_size s - 1) /
              cluster_size s * cluster_size s) (l1e_offset_mask e) (cluster_size s))) →
      ¬(chk_bit s.overlap_check ign 4 ∧
        s.refcount_table.any (fun e =>
          decide (reft_offset_mask e ≠ 0) &&
          ranges_overlap (offset.toNat / cluster_size s * cluster_size s)
            ((offset.toNat % cluster_size s + size.toNat + cluster_size s - 1) /
              cluster_size s * cluster_size s) (reft_offset_mask e) (cluster_size s))) →
      ¬(chk_bit s.overlap_check ign 7 ∧
        (s.snapshots.getD []).any (fun sn =>
          sn.l1_entries.any (fun e =>
            decide (l1e_offset_mask e ≠ 0) &&
            ranges_overlap (offset.toNat / cluster_size s * cluster_size s)
              ((offset.toNat % cluster_size s + size.toNat + cluster_size s - 1) /
                cluster_size s * cluster_size s) (l1e_offset_mask e)
              (cluster_size s)))) →
      qcow2_check_metadata_overlap s ign offset size = 0) ∧
    (0 < qcow2_check_metadata_overlap s ign offset size →
      qcow2_pre_write_overlap_check s ign offset size =
        (-errno_eio, signal_corruption s)) ∧
    (qcow2_check_metadata_overlap s ign offset size = 0 →
      qcow2_pre_write_overlap_check s ign offset size = (0, s)) := by
  refine ⟨?_, ?_, ?_, ?_⟩
  · intro hsz hhdr hl1 hen hlen hovl
    simp only [qcow2_check_metadata_overlap]
    rw [if_neg (by omega : ¬ size = 0), if_neg hhdr, if_neg hl1,
      if_pos ⟨hen, hlen, hovl⟩]
  · intro hhdr hl1 hrt hsnap hil1 hal2 hrb hil2
    simp only [qcow2_check_metadata_overlap]
    by_cases hsz : size = 0
    · rw [if_pos hsz]
    · rw [if_neg hsz, if_neg hhdr, if_neg hl1, if_neg hrt, if_neg hsnap,
        if_neg hil1, if_neg hal2, if_neg hrb, if_neg hil2]
  · intro hpos
    simp only [qcow2_pre_write_overlap_check]
    rw [if_neg (by omega), if_pos hpos]
  · intro h0
    simp only [qcow2_pre_write_overlap_check]
    rw [h0]
    norm_num

/-- A state whose only metadata region near the tested ranges is the
refcount table, for the C8 witness. -/
def stateC8b : QState :=
  { stateC8 with
    l1_size := 0
    l1_table := none }

theorem qcow2_check_metadata_overlap_spec_witness :
    qcow2_check_metadata_overlap stateC8b 0 1024 512 = qcow2_ol_refcount_table ∧
    qcow2_check_metadata_overlap stateC8b 0 4096 512 = 0 ∧
    qcow2_pre_write_overlap_check stateC8b 0 1024 512 =
      (-errno_eio, signal_corruption stateC8b) ∧
    qcow2_pre_write_overlap_check stateC8b 0 4096 512 = (0, stateC8b) := by
  have h1 := (qcow2_check_metadata_overlap_spec stateC8b 0 1024 512).1
    (by decide) (by decide) (by decide) (by decide) (by decide) (by decide)
  have h2 := (qcow2_check_metadata_overlap_spec stateC8b 0 4096 512).2.1
    (by decide) (by decide) (by decide) (by decide) (by decide) (by decide)
    (by decide) (by decide)
  refine ⟨h1, h2, ?_, ?_⟩
  · exact (qcow2_check_metadata_overlap_spec stateC8b 0 1024 512).2.2.1
      (by rw [h1]; decide)
  · exact (qcow2_check_metadata_overlap_spec stateC8b 0 4096 512).2.2.2 h2

/-- C7: in the checker's comparison pass, a cluster whose stored refcount
(read by get_refcount) differs from the computed one is counted in the
corruption category when the computed count is higher (and repaired, via
update_refcount with delta computed minus stored, only when fix-errors mode
is set), and in the leak category when the stored count is higher (repaired
only when fix-leaks mode is set). -/
theorem compare_refcounts_mismatch_spec (fuel fix : Nat) (acc : CmpAcc) (i rc2 : Nat)
    (hret : 0 ≤ (get_refcount acc.st i).ret)
    (hne : (get_refcount acc.st i).ret.toNat ≠ rc2) :
    ((get_refcount acc.st i).ret.toNat < rc2 →
      (compare_step fuel fix acc i rc2).res.corruptions +
          (compare_step fuel fix acc i rc2).res.corruptions_fixed =
        acc.res.corruptions + acc.res.corruptions_fixed + 1 ∧
      (compare_step fuel fix acc i rc2).res.leaks = acc.res.leaks ∧
      (compare_step fuel fix acc i rc2).res.leaks_fixed = acc.res.leaks_fixed ∧
      (acc.res.corruptions_fixed <
          (compare_step fuel fix acc i rc2).res.corruptions_fixed →
        fix / 2 % 2 = 1) ∧
      (fix / 2 % 2 = 1 → (get_refcount acc.st i).ret.toNat ≠ 0 →
        (compare_step fuel fix acc i rc2).st =
          (update_refcount_parts fuel (get_refcount acc.st i).st
            ((i * cluster_size (get_refcount acc.st i).st : Nat) : Int) 1
            ((rc2 : Int) - ((get_refcount acc.st i).ret.toNat : Int)) .always).2.1) ∧
      ((fix / 2 % 2 ≠ 1 ∨ (get_refcount acc.st i).ret.toNat = 0) →
        (compare_step fuel fix acc i rc2).st = (get_refcount acc.st i).st ∧
        (compare_step fuel fix acc i rc2).res.corruptions =
          acc.res.corruptions + 1)) ∧
    (rc2 < (get_refcount acc.st i).ret.toNat →
      (compare_step fuel fix acc i rc2).res.leaks +
          (compare_step fuel fix acc i rc2).res.leaks_fixed =
        acc.res.leaks + acc.res.leaks_fixed + 1 ∧
      (compare_step fuel fix acc i rc2).res.corruptions = acc.res.corruptions ∧
      (compare_step fuel fix acc i rc2).res.corruptions_fixed =
        acc.res.corruptions_fixed ∧
      (acc.res.leaks_fixed < (compare_step fuel fix acc i rc2).res.leaks_fixed →
        fix % 2 = 1) ∧
      (fix % 2 = 1 →
        (compare_step fuel fix acc i rc2).st =
          (update_refcount_parts fuel (get_refcount acc.st i).st
            ((i * cluster_size (get_refcount acc.st i).st : Nat) : Int) 1
            ((rc2 : Int) - ((get_refcount acc.st i).ret.toNat : Int)) .always).2.1) ∧
      (fix % 2 ≠ 1 →
        (compare_step fuel fix acc i rc2).st = (get_refcount acc.st i).st ∧
        (compare_step fuel fix acc i rc2).res.leaks = acc.res.leaks + 1)) := by
  have hnotlt : ¬ (get_refcount acc.st i).ret < 0 := not_lt.mpr hret
  constructor
  · intro hlt
    simp only [compare_step]
    rw [if_neg hnotlt, if_neg hne]
    by_cases h0 : (get_refcount acc.st i).ret.toNat = 0
    · rw [if_pos h0]
      dsimp only
      rw [if_pos hlt]
      exact ⟨by dsimp only; omega, rfl, rfl, by dsimp only; omega,
        fun _ hne0 => absurd h0 hne0, fun _ => ⟨rfl, rfl⟩⟩
    · rw [if_neg h0,
        if_neg (by omega : ¬ (rc2 < (get_refcount acc.st i).ret.toNat ∧ fix % 2 = 1))]
      by_cases hmode : fix / 2 % 2 = 1
      · rw [if_pos ⟨hlt, hmode⟩]
        dsimp only
        by_cases hu : 0 ≤ (update_refcount_parts fuel (get_refcount acc.st i).st
            ((i * cluster_size (get_refcount acc.st i).st : Nat) : Int) 1
            ((rc2 : Int) - ((get_refcount acc.st i).ret.toNat : Int)) .always).1
        · rw [if_pos hu, if_neg (show ¬ ((false : Bool) = true) by decide)]
          exact ⟨by dsimp only; omega, rfl, rfl, fun _ => hmode, fun _ _ => rfl,
            fun hc => hc.elim (fun hc => absurd hmode hc) (fun hc => absurd hc h0)⟩
        · rw [if_neg hu]
          dsimp only
          rw [if_pos hlt]
          exact ⟨by dsimp only; omega, rfl, rfl, by dsimp only; omega,
            fun _ _ => rfl,
            fun hc => hc.elim (fun hc => absurd hmode hc) (fun hc => absurd hc h0)⟩
      · rw [if_neg (fun hh => hmode hh.2)]
        dsimp only
        rw [if_pos hlt]
        exact ⟨by dsimp only; omega, rfl, rfl, by dsimp only; omega,
          fun hm => absurd hm hmode, fun _ => ⟨rfl, rfl⟩⟩
  · intro hgt
    have h0 : (get_refcount acc.st i).ret.toNat ≠ 0 := by omega
    have hnc : ¬ (get_refcount acc.st i).ret.toNat < rc2 := by omega
    simp only [compare_step]
    rw [if_neg hnotlt, if_neg hne, if_neg h0]
    by_cases hmode : fix % 2 = 1
    · rw [if_pos ⟨hgt, hmode⟩]
      dsimp only
      by_cases hu : 0 ≤ (update_refcount_parts fuel (get_refcount acc.st i).st
          ((i * cluster_size (get_refcount acc.st i).st : Nat) : Int) 1
          ((rc2 : Int) - ((get_refcount acc.st i).ret.toNat : Int)) .always).1
      · rw [if_pos hu, if_pos (show ((true : Bool) = true) from rfl)]
        exact ⟨by dsimp only; omega, rfl, rfl, fun _ => hmode, fun _ => rfl,
          fun hm => absurd hmode hm⟩
      · rw [if_neg hu]
        dsimp only
        rw [if_neg hnc]
        exact ⟨by dsimp only; omega, rfl, rfl, by dsimp only; omega,
          fun _ => rfl, fun hm => absurd hmode hm⟩
    · rw [if_neg (fun hh => hmode hh.2), if_neg (fun hh => absurd hh.1 hnc)]
      dsimp only
      rw [if_neg hnc]
      exact ⟨by dsimp only; omega, rfl, rfl, by dsimp only; omega,
        fun hm => absurd hm hmode, fun _ => ⟨rfl, rfl⟩⟩

/-- A concrete checker accumulator: stored refcount of cluster 0 is 1. -/
def accC7 : CmpAcc where
  st := { stateC9 with
    blocks := fun o i => if o = 512 ∧ i = 0 then 1 else 0
    discards := [] }
  res := ⟨0, 0, 0, 0, 0⟩
  rebuild := false
  highest_cluster := 0

theorem compare_refcounts_mismatch_spec_witness :
    (compare_step 20 2 accC7 0 2).res.corruptions +
      (compare_step 20 2 accC7 0 2).res.corruptions_fixed =
      accC7.res.corruptions + accC7.res.corruptions_fixed + 1 ∧
    (compare_step 20 2 accC7 0 2).st =
      (update_refcount_parts 20 (get_refcount accC7.st 0).st
        ((0 * cluster_size (get_refcount accC7.st 0).st : Nat) : Int) 1
        ((2 : Int) - ((get_refcount accC7.st 0).ret.toNat : Int)) .always).2.1 :=
  ⟨((compare_refcounts_mismatch_spec 20 2 accC7 0 2 (by decide) (by decide)).1
      (by decide)).1,
    ((compare_refcounts_mismatch_spec 20 2 accC7 0 2 (by decide) (by decide)).1
      (by decide)).2.2.2.2.1 (by decide) (by decide)⟩

/-- All counters in the refcount-block store fit their 16-bit cells. -/
def BlocksBounded (s : QState) : Prop := ∀ o i, s.blocks o i ≤ 65535

theorem blocksBounded_setCounter {s : QState} {b idx v : Nat}
    (hb : BlocksBounded s) (hv : v ≤ 65535) : BlocksBounded (setCounter s b idx v) := by
  intro o i
  simp only [setCounter]
  split_ifs
  · exact hv
  · exact hb o i

theorem blocksBounded_zeroBlock {s : QState} {b : Nat} (hb : BlocksBounded s) :
    BlocksBounded (zeroBlock s b) := by
  intro o i
  simp only [zeroBlock]
  split_ifs
  · omega
  · exact hb o i

theorem blocksBounded_write_new_blocks {s : QState} {mo bc nset : Nat}
    (hb : BlocksBounded s) : BlocksBounded (write_new_blocks s mo bc nset) := by
  intro o i
  simp only [write_new_blocks]
  split_ifs
  · omega
  · omega
  · exact hb o i

theorem update_refcount_discard_blocks (s : QState) (o l : Nat) :
    (update_refcount_discard s o l).blocks = s.blocks := by
  unfold update_refcount_discard
  cases split_mergeable o l s.discards with
  | none => rfl
  | some x => rfl

theorem blocksBounded_of_blocks_eq {s t : QState} (h : t.blocks = s.blocks)
    (hb : BlocksBounded s) : BlocksBounded t := by
  intro o i
  rw [h]
  exact hb o i

theorem blocksBounded_get_refcount_st {s : QState} {ci : Nat} (hb : BlocksBounded s) :
    BlocksBounded (get_refcount s ci).st :=
  blocksBounded_of_blocks_eq (get_refcount_st_core s ci).2.1 hb

theorem blocksBounded_alloc_clusters_noref {fuel : Nat} {s : QState} {size : Nat}
    (hb : BlocksBounded s) : BlocksBounded (alloc_clusters_noref fuel s size).2 :=
  blocksBounded_of_blocks_eq (alloc_clusters_noref_core fuel s size).2.1 hb

set_option maxHeartbeats 1000000

/-- The whole engine preserves the 16-bit counter bound: every store into a
refcount block is range-checked (update_refcount) or writes 0 or 1
(bootstrap and growth). -/
theorem engine_blocksBounded :
    ∀ fuel : Nat,
      (∀ s offs a ty cur, BlocksBounded s →
        BlocksBounded (update_rc_loop fuel s offs a ty cur).2.1) ∧
      (∀ s ci, BlocksBounded s → BlocksBounded (alloc_refcount_block fuel s ci).2.1) ∧
      (∀ s ti ci nb, BlocksBounded s →
        BlocksBounded (after_bootstrap fuel s ti ci nb).2.1) ∧
      (∀ s ti ci nb, BlocksBounded s →
        BlocksBounded (grow_refcount_table fuel s ti ci nb).2.1) ∧
      (∀ s off len a ty, BlocksBounded s →
        BlocksBounded (update_refcount_parts fuel s off len a ty).2.1) ∧
      (∀ s off sz ty, BlocksBounded s →
        BlocksBounded (qcow2_free_clusters fuel s off sz ty)) := by
  intro fuel
  induction fuel with
  | zero =>
      exact ⟨fun s _ _ _ _ hb => hb, fun s _ hb => hb, fun s _ _ _ hb => hb,
        fun s _ _ _ hb => hb, fun s _ _ _ _ hb => hb, fun s _ _ _ hb => hb⟩
  | succ f ih =>
      obtain ⟨ihloop, ihalloc, ihboot, ihgrow, ihupd, ihfree⟩ := ih
      have stepBound : ∀ (s0 s1 : QState) (co : Nat) (rest : List Nat) (a : Int)
          (ty : DiscardType) (ti rbo : Nat), BlocksBounded s1 →
          BlocksBounded ((
            let ci := co / cluster_size s0
            let bi := ci % refcount_block_size s1
            let rc : Int := (s1.blocks rbo bi : Int) + a
            if rc < 0 ∨ 65535 < rc then (-errno_einval, s1, co)
            else
              let s2 :=
                if rc = 0 ∧ ci < s1.free_cluster_index then
                  { s1 with free_cluster_index := ci }
                else s1
              let s3 := setCounter s2 rbo bi rc.toNat
              let s4 :=
                if rc = 0 ∧ s3.discard_passthrough ty then
                  update_refcount_discard s3 co (cluster_size s3)
                else s3
              update_rc_loop f s4 rest a ty (some (ti, rbo))) : Int × QState × Nat).2.1 := by
        intro s0 s1 co rest a ty ti rbo hb1
        dsimp only
        by_cases hrc : (s1.blocks rbo (co / cluster_size s0 % refcount_block_size s1) :
            Int) + a < 0 ∨ 65535 < (s1.blocks rbo (co / cluster_size s0 %
              refcount_block_size s1) : Int) + a
        · rw [if_pos hrc]
          exact hb1
        · rw [if_neg hrc]
          apply ihloop
          have hv : ((s1.blocks rbo (co / cluster_size s0 % refcount_block_size s1) :
              Int) + a).toNat ≤ 65535 := by omega
          have hfci : BlocksBounded
              { s1 with free_cluster_index := co / cluster_size s0 } := hb1
          split_ifs with h3 h4 h4
          · exact blocksBounded_of_blocks_eq (update_refcount_discard_blocks _ _ _)
              (blocksBounded_setCounter hfci hv)
          · exact blocksBounded_setCounter hfci hv
          · exact blocksBounded_of_blocks_eq (update_refcount_discard_blocks _ _ _)
              (blocksBounded_setCounter hb1 hv)
          · exact blocksBounded_setCounter hb1 hv
      refine ⟨?_, ?_, ?_, ?_, ?_, ?_⟩
      · intro s offs a ty cur hb
        cases offs with
        | nil =>
            simp only [update_rc_loop]
            exact hb
        | cons co rest =>
            simp only [update_rc_loop]
            cases cur with
            | none =>
                have hba := ihalloc s (co / cluster_size s) hb
                by_cases hneg : (alloc_refcount_block f s (co / cluster_size s)).1 < 0
                · rw [if_pos hneg]
                  exact hba
                · rw [if_neg hneg]
                  generalize hA : alloc_refcount_block f s (co / cluster_size s) = A
                    at hneg hba ⊢
                  exact stepBound s A.2.1 co rest a ty _ A.2.2 hba
            | some c =>
                dsimp only
                by_cases hsame : co / cluster_size s / refcount_block_size s = c.1
                · rw [if_pos hsame]
                  dsimp only
                  rw [if_neg (by norm_num : ¬ (0 : Int) < 0)]
                  exact stepBound s s co rest a ty _ c.2 hb
                · rw [if_neg hsame]
                  have hba := ihalloc s (co / cluster_size s) hb
                  by_cases hneg : (alloc_refcount_block f s (co / cluster_size s)).1 < 0
                  · rw [if_pos hneg]
                    exact hba
                  · rw [if_neg hneg]
                    generalize hA : alloc_refcount_block f s (co / cluster_size s) = A
                      at hneg hba ⊢
                    exact stepBound s A.2.1 co rest a ty _ A.2.2 hba
      · intro s ci hb
        simp only [alloc_refcount_block]
        by_cases h1 : ci / refcount_block_size s < s.refcount_table.length ∧
            reft_offset_mask (s.refcount_table.getD (ci / refcount_block_size s) 0) ≠ 0
        · rw [if_pos h1]
          by_cases h2 : reft_offset_mask
              (s.refcount_table.getD (ci / refcount_block_size s) 0) %
                cluster_size s ≠ 0
          · rw [if_pos h2]
            exact hb
          · rw [if_neg h2]
            exact hb
        · rw [if_neg h1]
          have hba := @blocksBounded_alloc_clusters_noref f s (cluster_size s) hb
          by_cases hneg : (alloc_clusters_noref f s (cluster_size s)).1 < 0
          · rw [if_pos hneg]
            exact hba
          · rw [if_neg hneg]
            generalize hA : alloc_clusters_noref f s (cluster_size s) = A at hneg hba ⊢
            by_cases h3 : in_same_refcount_block A.2 A.1.toNat (ci * cluster_size A.2) = true
            · rw [if_pos h3]
              exact ihboot _ _ _ _
                (blocksBounded_setCounter (blocksBounded_zeroBlock hba) (by omega))
            · rw [if_neg h3]
              have hbu := ihupd A.2 (A.1.toNat : Int) ((cluster_size A.2 : Nat) : Int)
                1 .never hba
              generalize hU : update_refcount_parts f A.2 (A.1.toNat : Int)
                ((cluster_size A.2 : Nat) : Int) 1 .never = U at hbu ⊢
              by_cases h4 : U.1 < 0
              · rw [if_pos h4]
                exact hbu
              · rw [if_neg h4]
                exact ihboot _ _ _ _ (blocksBounded_zeroBlock hbu)
      · intro s ti ci nb hb
        simp only [after_bootstrap]
        split_ifs with h1
        · exact hb
        · exact ihgrow _ _ _ _ hb
      · intro s ti ci nb hb
        simp only [grow_refcount_table]
        split_ifs with h1
        · exact hb
        · exact ihfree _ _ _ _ (blocksBounded_write_new_blocks hb)
      · intro s off len a ty hb
        simp only [update_refcount_parts]
        by_cases h1 : len < 0
        · rw [if_pos h1]
          exact hb
        · rw [if_neg h1]
          by_cases h2 : len = 0
          · rw [if_pos h2]
            exact hb
          · rw [if_neg h2]
            have hbl := ihloop s ((List.range
              (((off.toNat + len.toNat - 1) / cluster_size s * cluster_size s -
                off.toNat / cluster_size s * cluster_size s) / cluster_size s + 1)).map
              (fun i => off.toNat / cluster_size s * cluster_size s +
                i * cluster_size s)) a ty none hb
            generalize hR : update_rc_loop f s ((List.range
                (((off.toNat + len.toNat - 1) / cluster_size s * cluster_size s -
                  off.toNat / cluster_size s * cluster_size s) / cluster_size s + 1)).map
                (fun i => off.toNat / cluster_size s * cluster_size s +
                  i * cluster_size s)) a ty none = R at hbl ⊢
            have hb2 : BlocksBounded (if R.2.1.cache_discards then R.2.1
                else (qcow2_process_discards R.2.1 R.1).1) := by
              split_ifs with h3
              · exact hbl
              · exact hbl
            by_cases hneg : R.1 < 0
            · rw [if_pos hneg]
              exact ihupd _ _ _ _ _ hb2
            · rw [if_neg hneg]
              exact hb2
      · intro s off sz ty hb
        simp only [qcow2_free_clusters]
        exact ihupd _ _ _ _ _ hb

/-- C4: update_refcount never stores a counter outside [0, 0xFFFF]: from a
store whose counters are all in range, every counter is still in range
after any update, whatever its outcome; and a range step whose new count
would fall below 0 or above 0xFFFF fails with -EINVAL at that cluster,
writing nothing. -/
theorem update_refcount_counter_bounds (fuel : Nat) (s : QState)
    (offset length addend : Int) (ty : DiscardType) (hb : BlocksBounded s) :
    BlocksBounded (update_refcount fuel s offset length addend ty).2 ∧
    (∀ co rest rbo,
      ((s.blocks rbo (co / cluster_size s % refcount_block_size s) : Int) + addend < 0 ∨
        65535 < (s.blocks rbo (co / cluster_size s % refcount_block_size s) : Int) +
          addend) →
      update_rc_loop (fuel + 1) s (co :: rest) addend ty
        (some (co / cluster_size s / refcount_block_size s, rbo)) =
        (-errno_einval, s, co)) := by
  constructor
  · exact (engine_blocksBounded fuel).2.2.2.2.1 s offset length addend ty hb
  · intro co rest rbo hviol
    simp only [update_rc_loop, if_true]
    rw [if_neg (by norm_num : ¬ (0 : Int) < 0), if_pos hviol]

theorem update_refcount_counter_bounds_witness :
    BlocksBounded (update_refcount 8 stateC9 0 512 (-1) .never).2 ∧
    update_rc_loop 9 stateC9 [0] (-1) .never (some (0, 512)) =
      (-errno_einval, stateC9, 0) :=
  ⟨(update_refcount_counter_bounds 8 stateC9 0 512 (-1) .never
      (fun o i => Nat.zero_le _)).1,
    (update_refcount_counter_bounds 8 stateC9 0 512 (-1) .never
      (fun o i => Nat.zero_le _)).2 0 [] 512 (by decide)⟩

theorem urd_exists (s : QState) (o l : Nat) :
    ∃ d, update_refcount_discard s o l = { s with discards := d } := by
  unfold update_refcount_discard
  cases split_mergeable o l s.discards with
  | none => exact ⟨_, rfl⟩
  | some x =>
      obtain ⟨b, d, r⟩ := x
      exact ⟨_, rfl⟩

theorem urd_cluster_bits (s : QState) (o l : Nat) :
    (update_refcount_discard s o l).cluster_bits = s.cluster_bits := by
  obtain ⟨d, hd⟩ := urd_exists s o l
  rw [hd]

theorem urd_refcount_table (s : QState) (o l : Nat) :
    (update_refcount_discard s o l).refcount_table = s.refcount_table := by
  obtain ⟨d, hd⟩ := urd_exists s o l
  rw [hd]

/-- The load path of alloc_refcount_block: a present, aligned table entry is
returned as is, with no state change. -/
theorem alloc_refcount_block_load (f : Nat) (s : QState) (ci ti0 rbo : Nat)
    (hti : ci / refcount_block_size s = ti0)
    (hlen : ti0 < s.refcount_table.length)
    (hmask : reft_offset_mask (s.refcount_table.getD ti0 0) = rbo)
    (h0 : rbo ≠ 0)
    (hal : rbo % cluster_size s = 0) :
    alloc_refcount_block (f + 1) s ci = (0, s, rbo) := by
  simp only [alloc_refcount_block]
  rw [hti, hmask, if_pos ⟨hlen, h0⟩, if_neg (fun hx => hx hal)]

/-- The tail of a successful update_rc_loop step: whatever the free-cluster
hint and discard-queue branches do, the resulting state is the entry state
with one counter stored. -/
theorem update_rc_loop_step_tail (f : Nat) (s : QState) (co : Nat) (rest : List Nat)
    (a : Int) (ty : DiscardType) (ti0 rbo : Nat) :
    ∃ s' : QState,
      (let bi := co / cluster_size s % refcount_block_size s
       let rc : Int := (s.blocks rbo bi : Int) + a
       let s2 := if rc = 0 ∧ co / cluster_size s < s.free_cluster_index then
           { s with free_cluster_index := co / cluster_size s } else s
       let s3 := setCounter s2 rbo bi rc.toNat
       let s4 := if rc = 0 ∧ s3.discard_passthrough ty then
           update_refcount_discard s3 co (cluster_size s3) else s3
       update_rc_loop f s4 rest a ty (some (ti0, rbo))) =
        update_rc_loop f s' rest a ty (some (ti0, rbo)) ∧
      s'.cluster_bits = s.cluster_bits ∧
      s'.refcount_table = s.refcount_table ∧
      s'.blocks = fun o i =>
        if o = rbo ∧ i = co / cluster_size s % refcount_block_size s then
          ((s.blocks rbo (co / cluster_size s % refcount_block_size s) : Int) + a).toNat
        else s.blocks o i := by
  dsimp only [setCounter]
  by_cases h2 : (s.blocks rbo (co / cluster_size s % refcount_block_size s) : Int) + a = 0 ∧
      co / cluster_size s < s.free_cluster_index
  · rw [if_pos h2]
    by_cases h3 : (s.blocks rbo (co / cluster_size s % refcount_block_size s) : Int) + a = 0 ∧
        s.discard_passthrough ty = true
    · rw [if_pos h3]
      refine ⟨_, rfl, ?_, ?_, ?_⟩
      · rw [urd_cluster_bits]
      · rw [urd_refcount_table]
      · rw [update_refcount_discard_blocks]
    · rw [if_neg h3]
      exact ⟨_, rfl, rfl, rfl, rfl⟩
  · rw [if_neg h2]
    by_cases h3 : (s.blocks rbo (co / cluster_size s % refcount_block_size s) : Int) + a = 0 ∧
        s.discard_passthrough ty = true
    · rw [if_pos h3]
      refine ⟨_, rfl, ?_, ?_, ?_⟩
      · rw [urd_cluster_bits]
      · rw [urd_refcount_table]
      · rw [update_refcount_discard_blocks]
    · rw [if_neg h3]
      exact ⟨_, rfl, rfl, rfl, rfl⟩

/-- One successful update_rc_loop step over a cluster whose refcount block is
already at hand (from `cur` or a table load). -/
theorem update_rc_loop_cons_ok (f : Nat) (s : QState) (co : Nat) (rest : List Nat)
    (a : Int) (ty : DiscardType) (ti0 rbo : Nat) (cur : Option (Nat × Nat))
    (hcur : cur = none ∨ cur = some (ti0, rbo))
    (hti : co / cluster_size s / refcount_block_size s = ti0)
    (halloc : alloc_refcount_block f s (co / cluster_size s) = (0, s, rbo))
    (hrc : ¬ ((s.blocks rbo (co / cluster_size s % refcount_block_size s) : Int) + a < 0 ∨
      65535 < (s.blocks rbo (co / cluster_size s % refcount_block_size s) : Int) + a)) :
    ∃ s' : QState,
      update_rc_loop (f + 1) s (co :: rest) a ty cur =
        update_rc_loop f s' rest a ty (some (ti0, rbo)) ∧
      s'.cluster_bits = s.cluster_bits ∧
      s'.refcount_table = s.refcount_table ∧
      s'.blocks = fun o i =>
        if o = rbo ∧ i = co / cluster_size s % refcount_block_size s then
          ((s.blocks rbo (co / cluster_size s % refcount_block_size s) : Int) + a).toNat
        else s.blocks o i := by
  simp only [update_rc_loop]
  rcases hcur with rfl | rfl
  · rw [halloc]
    dsimp only
    rw [if_neg (by norm_num : ¬ ((0 : Int) < 0)), if_neg hrc, hti]
    exact update_rc_loop_step_tail f s co rest a ty ti0 rbo
  · dsimp only
    rw [hti, if_pos rfl]
    dsimp only
    rw [if_neg (by norm_num : ¬ ((0 : Int) < 0)), if_neg hrc]
    exact update_rc_loop_step_tail f s co rest a ty ti0 rbo

/-- A bounds-violating update_rc_loop step fails with -EINVAL at that
cluster, leaving the state untouched. -/
theorem update_rc_loop_cons_fail (f : Nat) (s : QState) (co : Nat) (rest : List Nat)
    (a : Int) (ty : DiscardType) (ti0 rbo : Nat) (cur : Option (Nat × Nat))
    (hcur : cur = none ∨ cur = some (ti0, rbo))
    (hti : co / cluster_size s / refcount_block_size s = ti0)
    (halloc : alloc_refcount_block f s (co / cluster_size s) = (0, s, rbo))
    (hrc : (s.blocks rbo (co / cluster_size s % refcount_block_size s) : Int) + a < 0 ∨
      65535 < (s.blocks rbo (co / cluster_size s % refcount_block_size s) : Int) + a) :
    update_rc_loop (f + 1) s (co :: rest) a ty cur = (-errno_einval, s, co) := by
  simp only [update_rc_loop]
  rcases hcur with rfl | rfl
  · rw [halloc]
    dsimp only
    rw [if_neg (by norm_num : ¬ ((0 : Int) < 0)), if_pos hrc]
  · dsimp only
    rw [hti, if_pos rfl]
    dsimp only
    rw [if_neg (by norm_num : ¬ ((0 : Int) < 0)), if_pos hrc]

/-- Composing one step's counter store with the characterisation of the
remaining run: the written slots are those of the whole cluster list. -/
theorem step_blocks_combine (s : QState) (p rbo : Nat) (tail : List Nat)
    (g : Nat → Nat) (B B' : Nat → Nat → Nat) (a : Int)
    (hnd : g p ∉ tail.map g)
    (hB : ∀ o i, B o i =
      if o = rbo ∧ i = g p then ((s.blocks rbo (g p) : Int) + a).toNat else s.blocks o i)
    (hB' : ∀ o i, B' o i =
      if o = rbo ∧ ∃ c ∈ tail, i = g c then ((B o i : Int) + a).toNat else B o i) :
    ∀ o i, B' o i =
      if o = rbo ∧ ∃ c ∈ p :: tail, i = g c then ((s.blocks o i : Int) + a).toNat
      else s.blocks o i := by
  intro o i
  rw [hB' o i]
  by_cases ho : o = rbo
  · subst ho
    by_cases hpre : ∃ c ∈ tail, i = g c
    · rw [if_pos ⟨rfl, hpre⟩, hB]
      obtain ⟨c, hc, rfl⟩ := hpre
      have hne : g c ≠ g p := fun he => hnd (he ▸ List.mem_map_of_mem g hc)
      rw [if_neg (fun hx => hne hx.2),
        if_pos ⟨rfl, ⟨c, List.mem_cons_of_mem p hc, rfl⟩⟩]
    · rw [if_neg (fun hx => hpre hx.2), hB]
      by_cases hip : i = g p
      · rw [if_pos ⟨rfl, hip⟩, if_pos ⟨rfl, ⟨p, List.mem_cons_self p tail, hip⟩⟩, hip]
      · rw [if_neg (fun hx => hip hx.2), if_neg (fun hx => ?_)]
        rcases hx.2 with ⟨c, hc, hi⟩
        rcases List.mem_cons.mp hc with rfl | hc2
        · exact hip hi
        · exact hpre ⟨c, hc2, hi⟩
  · rw [if_neg (fun hx => ho hx.1), hB, if_neg (fun hx => ho hx.1),
      if_neg (fun hx => ho hx.1)]

/-- A run of update_rc_loop over clusters all covered by one present, aligned
refcount block, with pairwise distinct slots and all new counts in range:
the run succeeds, leaves the table alone, and adds the addend to exactly the
listed slots. -/
theorem same_block_loop_ok :
    ∀ (pre : List Nat) (fuel : Nat) (s : QState) (a : Int) (ty : DiscardType)
      (ti0 rbo : Nat) (cur : Option (Nat × Nat)),
      pre.length < fuel →
      (cur = none ∨ cur = some (ti0, rbo)) →
      ti0 < s.refcount_table.length →
      reft_offset_mask (s.refcount_table.getD ti0 0) = rbo →
      rbo ≠ 0 →
      rbo % cluster_size s = 0 →
      (∀ c ∈ pre, c / cluster_size s / refcount_block_size s = ti0) →
      (pre.map (fun c => c / cluster_size s % refcount_block_size s)).Nodup →
      (∀ c ∈ pre,
        0 ≤ (s.blocks rbo (c / cluster_size s % refcount_block_size s) : Int) + a ∧
        (s.blocks rbo (c / cluster_size s % refcount_block_size s) : Int) + a ≤ 65535) →
      (update_rc_loop fuel s pre a ty cur).1 = 0 ∧
      (update_rc_loop fuel s pre a ty cur).2.1.cluster_bits = s.cluster_bits ∧
      (update_rc_loop fuel s pre a ty cur).2.1.refcount_table = s.refcount_table ∧
      ∀ o i, (update_rc_loop fuel s pre a ty cur).2.1.blocks o i =
        if o = rbo ∧ ∃ c ∈ pre, i = c / cluster_size s % refcount_block_size s then
          ((s.blocks o i : Int) + a).toNat
        else s.blocks o i := by
  intro pre
  induction pre with
  | nil =>
      intro fuel s a ty ti0 rbo cur hfuel hcur hlen hmask h0 hal hsame hnodup hok
      have h01 : 0 < fuel := by simpa using hfuel
      obtain ⟨f, rfl⟩ : ∃ f, fuel = f + 1 := ⟨fuel - 1, by omega⟩
      simp only [update_rc_loop]
      refine ⟨trivial, trivial, trivial, ?_⟩
      intro o i
      rw [if_neg (fun hx => ?_)]
      rcases hx.2 with ⟨c, hc, _⟩
      exact absurd hc (List.not_mem_nil c)
  | cons co rest ih =>
      intro fuel s a ty ti0 rbo cur hfuel hcur hlen hmask h0 hal hsame hnodup hok
      have hfr : rest.length < fuel - 1 := by
        simp only [List.length_cons] at hfuel
        omega
      obtain ⟨f, rfl⟩ : ∃ f, fuel = f + 1 := ⟨fuel - 1, by omega⟩
      obtain ⟨f2, rfl⟩ : ∃ f2, f = f2 + 1 := ⟨f - 1, by omega⟩
      have hti : co / cluster_size s / refcount_block_size s = ti0 :=
        hsame co (List.mem_cons_self co rest)
      have halloc : alloc_refcount_block (f2 + 1) s (co / cluster_size s) = (0, s, rbo) :=
        alloc_refcount_block_load f2 s (co / cluster_size s) ti0 rbo hti hlen hmask h0 hal
      have hokh := hok co (List.mem_cons_self co rest)
      have hrc : ¬ ((s.blocks rbo (co / cluster_size s % refcount_block_size s) : Int) +
          a < 0 ∨
          65535 < (s.blocks rbo (co / cluster_size s % refcount_block_size s) : Int) + a) := by
        intro hx
        rcases hx with hx | hx <;> omega
      obtain ⟨s', heq, hcb', htab', hblk'⟩ :=
        update_rc_loop_cons_ok (f2 + 1) s co rest a ty ti0 rbo cur hcur hti halloc hrc
      rw [heq]
      have hcs' : cluster_size s' = cluster_size s := cluster_size_congr hcb'
      have hrbs' : refcount_block_size s' = refcount_block_size s := rbs_congr hcb'
      simp only [List.map_cons, List.nodup_cons] at hnodup
      have hgne : ∀ c ∈ rest, c / cluster_size s % refcount_block_size s ≠
          co / cluster_size s % refcount_block_size s := by
        intro c hc he
        exact hnodup.1 (he ▸ List.mem_map_of_mem _ hc)
      have key := ih (f2 + 1) s' a ty ti0 rbo (some (ti0, rbo))
        (by omega)
        (Or.inr rfl)
        (by rw [htab']; exact hlen)
        (by rw [htab']; exact hmask)
        h0
        (by rw [hcs']; exact hal)
        (by intro c hc
            rw [hcs', hrbs']
            exact hsame c (List.mem_cons_of_mem co hc))
        (by simp only [hcs', hrbs']
            exact hnodup.2)
        (by intro c hc
            rw [hcs', hrbs']
            have hbv : s'.blocks rbo (c / cluster_size s % refcount_block_size s) =
                s.blocks rbo (c / cluster_size s % refcount_block_size s) := by
              rw [hblk']
              exact if_neg (fun hx => hgne c hc hx.2)
            rw [hbv]
            exact hok c (List.mem_cons_of_mem co hc))
      obtain ⟨k1, k2, k3, k4⟩ := key
      refine ⟨k1, by rw [k2, hcb'], by rw [k3, htab'], ?_⟩
      have hcomb := step_blocks_combine s co rbo rest
        (fun c => c / cluster_size s % refcount_block_size s) s'.blocks
        (update_rc_loop (f2 + 1) s' rest a ty (some (ti0, rbo))).2.1.blocks a
        hnodup.1
        (by intro o i
            rw [hblk'])
        (by intro o i
            rw [k4 o i]
            simp only [hcs', hrbs'])
      intro o i
      rw [hcomb o i]

/-- A run of update_rc_loop over clusters of one present, aligned refcount
block that hits a bounds violation mid-list: -EINVAL is returned with the
violating cluster offset, and exactly the preceding slots were updated. -/
theorem same_block_loop_fail :
    ∀ (pre : List Nat) (cv : Nat) (post : List Nat) (fuel : Nat) (s : QState)
      (a : Int) (ty : DiscardType) (ti0 rbo : Nat) (cur : Option (Nat × Nat)),
      pre.length + 2 ≤ fuel →
      (cur = none ∨ cur = some (ti0, rbo)) →
      ti0 < s.refcount_table.length →
      reft_offset_mask (s.refcount_table.getD ti0 0) = rbo →
      rbo ≠ 0 →
      rbo % cluster_size s = 0 →
      (∀ c ∈ pre ++ cv :: post, c / cluster_size s / refcount_block_size s = ti0) →
      (((pre ++ [cv]).map (fun c => c / cluster_size s % refcount_block_size s)).Nodup) →
      (∀ c ∈ pre,
        0 ≤ (s.blocks rbo (c / cluster_size s % refcount_block_size s) : Int) + a ∧
        (s.blocks rbo (c / cluster_size s % refcount_block_size s) : Int) + a ≤ 65535) →
      ((s.blocks rbo (cv / cluster_size s % refcount_block_size s) : Int) + a < 0 ∨
        65535 < (s.blocks rbo (cv / cluster_size s % refcount_block_size s) : Int) + a) →
      (update_rc_loop fuel s (pre ++ cv :: post) a ty cur).1 = -errno_einval ∧
      (update_rc_loop fuel s (pre ++ cv :: post) a ty cur).2.2 = cv ∧
      (update_rc_loop fuel s (pre ++ cv :: post) a ty cur).2.1.cluster_bits =
        s.cluster_bits ∧
      (update_rc_loop fuel s (pre ++ cv :: post) a ty cur).2.1.refcount_table =
        s.refcount_table ∧
      ∀ o i, (update_rc_loop fuel s (pre ++ cv :: post) a ty cur).2.1.blocks o i =
        if o = rbo ∧ ∃ c ∈ pre, i = c / cluster_size s % refcount_block_size s then
          ((s.blocks o i : Int) + a).toNat
        else s.blocks o i := by
  intro pre
  induction pre with
  | nil =>
      intro cv post fuel s a ty ti0 rbo cur hfuel hcur hlen hmask h0 hal hsame hnodup
        hok hviol
      have h02 : 2 ≤ fuel := by simpa using hfuel
      obtain ⟨f, rfl⟩ : ∃ f, fuel = f + 1 := ⟨fuel - 1, by omega⟩
      obtain ⟨f2, rfl⟩ : ∃ f2, f = f2 + 1 := ⟨f - 1, by omega⟩
      have hti : cv / cluster_size s / refcount_block_size s = ti0 :=
        hsame cv (by simp)
      have halloc : alloc_refcount_block (f2 + 1) s (cv / cluster_size s) = (0, s, rbo) :=
        alloc_refcount_block_load f2 s (cv / cluster_size s) ti0 rbo hti hlen hmask h0 hal
      have heq := update_rc_loop_cons_fail (f2 + 1) s cv post a ty ti0 rbo cur hcur hti
        halloc hviol
      simp only [List.nil_append]
      rw [heq]
      refine ⟨rfl, rfl, rfl, rfl, ?_⟩
      intro o i
      rw [if_neg (fun hx => ?_)]
      rcases hx.2 with ⟨c, hc, _⟩
      exact absurd hc (List.not_mem_nil c)
  | cons p pre' ih =>
      intro cv post fuel s a ty ti0 rbo cur hfuel hcur hlen hmask h0 hal hsame hnodup
        hok hviol
      have hfr : pre'.length + 2 ≤ fuel - 1 := by
        simp only [List.length_cons] at hfuel
        omega
      obtain ⟨f, rfl⟩ : ∃ f, fuel = f + 1 := ⟨fuel - 1, by omega⟩
      obtain ⟨f2, rfl⟩ : ∃ f2, f = f2 + 1 := ⟨f - 1, by omega⟩
      simp only [List.cons_append]
      have hti : p / cluster_size s / refcount_block_size s = ti0 :=
        hsame p (by simp)
      have halloc : alloc_refcount_block (f2 + 1) s (p / cluster_size s) = (0, s, rbo) :=
        alloc_refcount_block_load f2 s (p / cluster_size s) ti0 rbo hti hlen hmask h0 hal
      have hokh := hok p (List.mem_cons_self p pre')
      have hrc : ¬ ((s.blocks rbo (p / cluster_size s % refcount_block_size s) : Int) +
          a < 0 ∨
          65535 < (s.blocks rbo (p / cluster_size s % refcount_block_size s) : Int) + a) := by
        intro hx
        rcases hx with hx | hx <;> omega
      obtain ⟨s', heq, hcb', htab', hblk'⟩ :=
        update_rc_loop_cons_ok (f2 + 1) s p (pre' ++ cv :: post) a ty ti0 rbo cur hcur hti
          halloc hrc
      rw [heq]
      have hcs' : cluster_size s' = cluster_size s := cluster_size_congr hcb'
      have hrbs' : refcount_block_size s' = refcount_block_size s := rbs_congr hcb'
      simp only [List.cons_append, List.map_cons, List.nodup_cons] at hnodup
      have hgne : ∀ c ∈ pre' ++ [cv], c / cluster_size s % refcount_block_size s ≠
          p / cluster_size s % refcount_block_size s := by
        intro c hc he
        exact hnodup.1 (he ▸ List.mem_map_of_mem _ hc)
      have hbvcv : s'.blocks rbo (cv / cluster_size s % refcount_block_size s) =
          s.blocks rbo (cv / cluster_size s % refcount_block_size s) := by
        rw [hblk']
        exact if_neg (fun hx =>
          hgne cv (List.mem_append_right pre' (List.mem_cons_self cv [])) hx.2)
      have key := ih cv post (f2 + 1) s' a ty ti0 rbo (some (ti0, rbo))
        (by omega)
        (Or.inr rfl)
        (by rw [htab']; exact hlen)
        (by rw [htab']; exact hmask)
        h0
        (by rw [hcs']; exact hal)
        (by intro c hc
            rw [hcs', hrbs']
            exact hsame c (List.mem_cons_of_mem p hc))
        (by simp only [hcs', hrbs']
            exact hnodup.2)
        (by intro c hc
            rw [hcs', hrbs']
            have hbv : s'.blocks rbo (c / cluster_size s % refcount_block_size s) =
                s.blocks rbo (c / cluster_size s % refcount_block_size s) := by
              rw [hblk']
              exact if_neg (fun hx => hgne c (List.mem_append_left [cv] hc) hx.2)
            rw [hbv]
            exact hok c (List.mem_cons_of_mem p hc))
        (by rw [hcs', hrbs', hbvcv]
            exact hviol)
      obtain ⟨k1, k2, k3, k4, k5⟩ := key
      refine ⟨k1, k2, by rw [k3, hcb'], by rw [k4, htab'], ?_⟩
      have hcomb := step_blocks_combine s p rbo pre'
        (fun c => c / cluster_size s % refcount_block_size s) s'.blocks
        (update_rc_loop (f2 + 1) s' (pre' ++ cv :: post) a ty
          (some (ti0, rbo))).2.1.blocks a
        (fun hmem => hnodup.1 (by
          simp only [List.map_append] at hmem ⊢
          exact List.mem_append_left _ hmem))
        (by intro o i
            rw [hblk'])
        (by intro o i
            rw [k5 o i]
            simp only [hcs', hrbs'])
      intro o i
      rw [hcomb o i]

theorem map_range'_split (f : Nat → Nat) :
    ∀ (pre : List Nat) (st n : Nat) (cv : Nat) (post : List Nat),
      (List.range' st n).map f = pre ++ cv :: post →
      pre = (List.range' st pre.length).map f ∧ cv = f (st + pre.length) ∧
        pre.length + post.length + 1 = n := by
  intro pre
  induction pre with
  | nil =>
      intro st n cv post h
      cases n with
      | zero => simp at h
      | succ m =>
          rw [show List.range' st (m + 1) = st :: List.range' (st + 1) m from rfl,
            List.map_cons, List.nil_append] at h
          injection h with h1 h2
          refine ⟨rfl, ?_, ?_⟩
          · rw [← h1, List.length_nil, Nat.add_zero]
          · have := congrArg List.length h2
            simp at this
            simp
            omega
  | cons p pre' ih =>
      intro st n cv post h
      cases n with
      | zero => simp at h
      | succ m =>
          rw [show List.range' st (m + 1) = st :: List.range' (st + 1) m from rfl,
            List.map_cons, List.cons_append] at h
          injection h with h1 h2
          obtain ⟨ha, hbv, hc⟩ := ih (st + 1) m cv post h2
          refine ⟨?_, ?_, ?_⟩
          · rw [show List.range' st (List.length (p :: pre')) =
              st :: List.range' (st + 1) pre'.length from rfl, List.map_cons, h1, ← ha]
          · rw [hbv]
            congr 1
            simp only [List.length_cons]
            omega
          · simp only [List.length_cons]
            omega

theorem map_range_split (f : Nat → Nat) (n : Nat) (pre : List Nat) (cv : Nat)
    (post : List Nat) (h : (List.range n).map f = pre ++ cv :: post) :
    pre = (List.range pre.length).map f ∧ cv = f pre.length ∧
      pre.length + post.length + 1 = n := by
  rw [List.range_eq_range'] at h
  obtain ⟨h1, h2, h3⟩ := map_range'_split f pre 0 n cv post h
  refine ⟨?_, ?_, h3⟩
  · rw [List.range_eq_range']
    exact h1
  · rw [h2, Nat.zero_add]

/-- C6 (amended): when update_refcount fails mid-range it applies the
inverse addend to exactly the already-processed prefix, ignores the undo's
own return value, and returns the original error.  When the failure is a
counter-bounds violation (-EINVAL) inside a range whose clusters are all
covered by one refcount block already present in the table (so the failing
pass allocated no metadata), the undo restores every counter to its
pre-call value.  (Unconditional restoration is false: a failure after a
refcount-block bootstrap leaves the new block's counters changed, see the
counterexample.) -/
theorem update_refcount_undo_restores (fuel : Nat) (s : QState)
    (offset length a : Int) (ty : DiscardType) (ti0 rbo : Nat)
    (pre : List Nat) (cv : Nat) (post : List Nat)
    (hb : BlocksBounded s)
    (hoff0 : 0 ≤ offset)
    (halign : offset.toNat % cluster_size s = 0)
    (hlen0 : 0 < length)
    (hfuel : pre.length + 4 ≤ fuel)
    (hti0len : ti0 < s.refcount_table.length)
    (hmask : reft_offset_mask (s.refcount_table.getD ti0 0) = rbo)
    (h0 : rbo ≠ 0)
    (hal : rbo % cluster_size s = 0)
    (hsplit : (List.range (((offset.toNat + length.toNat - 1) / cluster_size s *
        cluster_size s - offset.toNat) / cluster_size s + 1)).map
        (fun i => offset.toNat + i * cluster_size s) = pre ++ cv :: post)
    (hsame : ∀ c ∈ pre ++ cv :: post,
      c / cluster_size s / refcount_block_size s = ti0)
    (hnodup : ((pre ++ [cv]).map
      (fun c => c / cluster_size s % refcount_block_size s)).Nodup)
    (hok : ∀ c ∈ pre,
      0 ≤ (s.blocks rbo (c / cluster_size s % refcount_block_size s) : Int) + a ∧
      (s.blocks rbo (c / cluster_size s % refcount_block_size s) : Int) + a ≤ 65535)
    (hviol : (s.blocks rbo (cv / cluster_size s % refcount_block_size s) : Int) + a < 0 ∨
      65535 < (s.blocks rbo (cv / cluster_size s % refcount_block_size s) : Int) + a) :
    (update_refcount fuel s offset length a ty).1 = -errno_einval ∧
    (update_refcount_parts fuel s offset length a ty).2.2 = some 0 ∧
    ∀ o i, (update_refcount fuel s offset length a ty).2.blocks o i = s.blocks o i := by
  simp only [update_refcount]
  have hcspos : 0 < cluster_size s := cluster_size_pos s
  have hdvd : cluster_size s ∣ offset.toNat := Nat.dvd_of_mod_eq_zero halign
  have hstart : offset.toNat / cluster_size s * cluster_size s = offset.toNat :=
    Nat.div_mul_cancel hdvd
  obtain ⟨hpre_eq, hcv_eqr, hlen_eq⟩ := map_range_split
    (fun i => offset.toNat + i * cluster_size s)
    (((offset.toNat + length.toNat - 1) / cluster_size s * cluster_size s -
      offset.toNat) / cluster_size s + 1) pre cv post hsplit
  have hcv2 : cv = offset.toNat + pre.length * cluster_size s := hcv_eqr
  obtain ⟨F, rfl⟩ : ∃ F, fuel = F + 1 := ⟨fuel - 1, by omega⟩
  simp only [update_refcount_parts]
  rw [if_neg (by omega : ¬ length < 0), if_neg (by omega : ¬ length = 0)]
  rw [hstart, hsplit]
  have hfail := same_block_loop_fail pre cv post F s a ty ti0 rbo none (by omega)
    (Or.inl rfl) hti0len hmask h0 hal hsame hnodup hok hviol
  generalize hR : update_rc_loop F s (pre ++ cv :: post) a ty none = R at hfail ⊢
  obtain ⟨hr1, hr22, hrcb, hrtab, hrblk⟩ := hfail
  rw [hr1, hr22, if_pos (show (-errno_einval : Int) < 0 by norm_num [errno_einval])]
  have hs2e : ∃ dd, (if R.2.1.cache_discards = true then R.2.1
      else (qcow2_process_discards R.2.1 (-errno_einval)).1) =
      { R.2.1 with discards := dd } := by
    split_ifs
    · exact ⟨R.2.1.discards, rfl⟩
    · exact ⟨[], rfl⟩
  obtain ⟨dd, hs2⟩ := hs2e
  rw [hs2]
  have hcb2 : ({ R.2.1 with discards := dd } : QState).cluster_bits = s.cluster_bits :=
    hrcb
  have htab2 : ({ R.2.1 with discards := dd } : QState).refcount_table =
      s.refcount_table := hrtab
  have hblk2 : ∀ o i, ({ R.2.1 with discards := dd } : QState).blocks o i =
      (if o = rbo ∧ ∃ c ∈ pre, i = c / cluster_size s % refcount_block_size s then
        ((s.blocks o i : Int) + a).toNat
      else s.blocks o i) := hrblk
  have hcs2 : cluster_size { R.2.1 with discards := dd } = cluster_size s :=
    cluster_size_congr hcb2
  have hrbs2 : refcount_block_size { R.2.1 with discards := dd } =
      refcount_block_size s := rbs_congr hcb2
  obtain ⟨F2, rfl⟩ : ∃ F2, F = F2 + 1 := ⟨F - 1, by omega⟩
  simp only [update_refcount_parts]
  rw [hcs2]
  have hlenu : (cv : Int) - offset = ((pre.length * cluster_size s : Nat) : Int) := by
    rw [hcv2]
    push_cast
    omega
  rw [hlenu, if_neg (not_lt.mpr (Int.natCast_nonneg _))]
  by_cases hk0 : pre.length = 0
  · rw [if_pos (show ((pre.length * cluster_size s : Nat) : Int) = 0 by
      rw [hk0]; norm_num)]
    obtain rfl : pre = [] := List.length_eq_zero.mp hk0
    refine ⟨trivial, rfl, ?_⟩
    intro o i
    show R.2.1.blocks o i = s.blocks o i
    rw [hrblk o i, if_neg (fun hx => ?_)]
    rcases hx.2 with ⟨c, hc, _⟩
    exact absurd hc (List.not_mem_nil c)
  · rw [if_neg (show ¬ ((pre.length * cluster_size s : Nat) : Int) = 0 from fun hx =>
      hk0 ((Nat.mul_eq_zero.mp (Int.natCast_eq_zero.mp hx)).resolve_right
        (by omega)))]
    rw [Int.toNat_natCast, hstart]
    have hlast : (offset.toNat + pre.length * cluster_size s - 1) / cluster_size s *
        cluster_size s = offset.toNat + (pre.length - 1) * cluster_size s := by
      obtain ⟨q, hq⟩ := hdvd
      obtain ⟨m', hm⟩ : ∃ m', pre.length = m' + 1 := ⟨pre.length - 1, by omega⟩
      rw [hm, hq]
      simp only [Nat.add_sub_cancel]
      have h1 : cluster_size s * q + (m' + 1) * cluster_size s - 1 =
          cluster_size s * (q + m') + (cluster_size s - 1) := by
        rw [Nat.succ_mul, Nat.mul_add, Nat.mul_comm m' (cluster_size s)]
        omega
      rw [h1, Nat.mul_add_div hcspos, Nat.div_eq_of_lt (by omega), Nat.add_zero,
        Nat.add_mul, Nat.mul_comm q (cluster_size s)]
    have hn : (offset.toNat + (pre.length - 1) * cluster_size s - offset.toNat) /
        cluster_size s + 1 = pre.length := by
      rw [Nat.add_sub_cancel_left, Nat.mul_div_cancel _ hcspos]
      omega
    rw [hlast, hn, ← hpre_eq]
    have hundo := same_block_loop_ok pre F2 { R.2.1 with discards := dd } (-a) .never
      ti0 rbo none (by omega) (Or.inl rfl)
      (by rw [htab2]; exact hti0len)
      (by rw [htab2]; exact hmask)
      h0
      (by rw [hcs2]; exact hal)
      (by intro c hc
          rw [hcs2, hrbs2]
          exact hsame c (List.mem_append_left _ hc))
      (by simp only [hcs2, hrbs2]
          exact List.Nodup.sublist
            (List.Sublist.map _ (List.sublist_append_left pre [cv])) hnodup)
      (by intro c hc
          rw [hcs2, hrbs2, hblk2, if_pos ⟨rfl, ⟨c, hc, rfl⟩⟩]
          have hbd := hok c hc
          have hle : s.blocks rbo (c / cluster_size s % refcount_block_size s) ≤
              65535 := hb rbo _
          omega)
    generalize hU : update_rc_loop F2 { R.2.1 with discards := dd } pre (-a)
      DiscardType.never none = U at hundo ⊢
    obtain ⟨hu1, hucb, hutab, hublk⟩ := hundo
    rw [hu1, if_neg (by norm_num : ¬ ((0 : Int) < 0))]
    have hWe : ∃ d5, (if U.2.1.cache_discards = true then U.2.1
        else (qcow2_process_discards U.2.1 0).1) = { U.2.1 with discards := d5 } := by
      split_ifs
      · exact ⟨U.2.1.discards, rfl⟩
      · exact ⟨[], rfl⟩
    obtain ⟨d5, hW⟩ := hWe
    rw [hW]
    refine ⟨trivial, rfl, ?_⟩
    intro o i
    show U.2.1.blocks o i = s.blocks o i
    rw [hublk o i]
    simp only [hcs2, hrbs2]
    rw [hblk2 o i]
    by_cases hcnd : o = rbo ∧ ∃ c ∈ pre, i = c / cluster_size s % refcount_block_size s
    · rw [if_pos hcnd, if_pos hcnd]
      obtain ⟨ho, c, hc, hi⟩ := hcnd
      subst ho
      subst hi
      have hbd := hok c hc
      omega
    · rw [if_neg hcnd, if_neg hcnd]

/-- A 512-byte-cluster image whose refcount table has room for a second
block: counter updates past cluster 255 must bootstrap a refcount block. -/
def stateC6 : QState where
  cluster_bits := 9
  refcount_table := [512, 0]
  refcount_table_offset := 4096
  free_cluster_index := 2
  blocks := fun o i => if o = 512 ∧ i = 255 then 7 else 0
  discards := []
  cache_discards := false
  discard_passthrough := fun _ => false
  overlap_check := 0
  corrupted := false
  l1_table_offset := 0
  l1_size := 0
  l1_table := none
  snapshots_offset := 0
  snapshots_size := 0
  snapshots := none

/-- C6, counterexample to unconditional restoration: incrementing the two
clusters at 130560 makes the first step succeed and the second bootstrap a
new refcount block (whose backing cluster 2 gains refcount 1) before
failing with the restart signal.  The undo then runs and succeeds
(recorded return 0), yet on the error return the counter of cluster 2
differs from its pre-call value: the undo only reverts the caller's
prefix, not the bootstrap's self-accounting. -/
theorem update_refcount_undo_not_always_restoring :
    (update_refcount 30 stateC6 130560 1024 1 .never).1 < 0 ∧
    (update_refcount_parts 30 stateC6 130560 1024 1 .never).2.2 = some 0 ∧
    (update_refcount 30 stateC6 130560 1024 1 .never).2.blocks 512 2 = 1 ∧
    stateC6.blocks 512 2 = 0 :=
  ⟨by decide, by decide, by decide, by decide⟩

/-- A 512-byte-cluster image with one present refcount block whose slot 1 is
saturated at 0xFFFF. -/
def stateC6w : QState where
  cluster_bits := 9
  refcount_table := [512]
  refcount_table_offset := 4096
  free_cluster_index := 0
  blocks := fun o i => if o = 512 ∧ i = 1 then 65535 else 0
  discards := []
  cache_discards := false
  discard_passthrough := fun _ => false
  overlap_check := 0
  corrupted := false
  l1_table_offset := 0
  l1_size := 0
  l1_table := none
  snapshots_offset := 0
  snapshots_size := 0
  snapshots := none

theorem update_refcount_undo_restores_witness :
    (update_refcount 5 stateC6w 0 1024 1 .never).1 = -errno_einval ∧
    (update_refcount_parts 5 stateC6w 0 1024 1 .never).2.2 = some 0 ∧
    ∀ o i, (update_refcount 5 stateC6w 0 1024 1 .never).2.blocks o i =
      stateC6w.blocks o i :=
  update_refcount_undo_restores 5 stateC6w 0 1024 1 .never 0 512 [0] 512 []
    (fun o i => by simp only [stateC6w]; split_ifs <;> omega)
    (by decide) (by decide) (by decide) (by decide) (by decide) (by decide)
    (by decide) (by decide) (by decide) (by decide) (by decide) (by decide)
    (by decide)

theorem get_refcount_st_rto (s : QState) (ci : Nat) :
    (get_refcount s ci).st.refcount_table_offset = s.refcount_table_offset := by
  rcases get_refcount_st_cases s ci with h | h <;> rw [h] <;> rfl

theorem noref_run_rto : ∀ (n : Nat) (s : QState),
    (scanState (noref_run s n)).refcount_table_offset = s.refcount_table_offset := by
  intro n
  induction n with
  | zero => intro s; rfl
  | succ n ih =>
      intro s
      simp only [noref_run]
      by_cases h1 : (get_refcount { s with free_cluster_index := s.free_cluster_index + 1 }
          s.free_cluster_index).ret < 0
      · rw [if_pos h1]
        exact get_refcount_st_rto _ _
      · rw [if_neg h1]
        by_cases h2 : (get_refcount { s with free_cluster_index := s.free_cluster_index + 1 }
            s.free_cluster_index).ret ≠ 0
        · rw [if_pos h2]
          exact get_refcount_st_rto _ _
        · rw [if_neg h2]
          exact (ih _).trans (get_refcount_st_rto _ _)

theorem noref_retry_rto : ∀ (fuel : Nat) (s : QState) (nb : Nat),
    (noref_retry fuel s nb).2.refcount_table_offset = s.refcount_table_offset := by
  intro fuel
  induction fuel with
  | zero => intro s nb; rfl
  | succ f ih =>
      intro s nb
      cases hr : noref_run s nb with
      | ok s1 =>
          have hcore := noref_run_rto nb s
          rw [hr] at hcore
          simp only [noref_retry, hr]
          exact hcore
      | err e s1 =>
          have hcore := noref_run_rto nb s
          rw [hr] at hcore
          simp only [noref_retry, hr]
          exact hcore
      | busy s1 =>
          have hcore := noref_run_rto nb s
          rw [hr] at hcore
          simp only [noref_retry, hr]
          exact (ih s1 nb).trans hcore

theorem alloc_clusters_noref_rto (fuel : Nat) (s : QState) (size : Nat) :
    (alloc_clusters_noref fuel s size).2.refcount_table_offset =
      s.refcount_table_offset := by
  simp only [alloc_clusters_noref]
  by_cases hcd : s.cache_discards
  · rw [if_pos hcd]
    exact noref_retry_rto fuel _ _
  · rw [if_neg hcd]
    exact noref_retry_rto fuel s _

theorem size_to_clusters_congr {s t : QState} (h : t.cluster_bits = s.cluster_bits)
    (x : Nat) : size_to_clusters t x = size_to_clusters s x := by
  unfold size_to_clusters
  rw [cluster_size_congr h]

theorem next_refcount_table_size_congr {s t : QState}
    (hcb : t.cluster_bits = s.cluster_bits) (htab : t.refcount_table = s.refcount_table)
    (m : Nat) : next_refcount_table_size t m = next_refcount_table_size s m := by
  unfold next_refcount_table_size
  rw [hcb, htab]

theorem grow_ts_fix_congr {s t : QState} (hcb : t.cluster_bits = s.cluster_bits)
    (htab : t.refcount_table = s.refcount_table) :
    ∀ (f bu ts : Nat), grow_ts_fix f t bu ts = grow_ts_fix f s bu ts := by
  intro f
  induction f with
  | zero => intro bu ts; rfl
  | succ f ih =>
      intro bu ts
      simp only [grow_ts_fix]
      rw [size_to_clusters_congr hcb, rbs_congr hcb, next_refcount_table_size_congr hcb htab]
      split_ifs with h
      · rfl
      · exact ih bu _

theorem grown_table_congr {s t : QState} (hcb : t.cluster_bits = s.cluster_bits)
    (htab : t.refcount_table = s.refcount_table) (ti nb bu bc ts mo : Nat) :
    grown_table t ti nb bu bc ts mo = grown_table s ti nb bu bc ts mo := by
  unfold grown_table
  rw [htab, cluster_size_congr hcb]

theorem grow_ts_fix_ge {s : QState} :
    ∀ (f bu ts : Nat), bu + 1 ≤ ts → bu + 1 ≤ grow_ts_fix f s bu ts := by
  intro f
  induction f with
  | zero => intro bu ts h; exact h
  | succ f ih =>
      intro bu ts h
      simp only [grow_ts_fix]
      split_ifs with h2
      · exact h
      · apply ih
        exact le_trans (Nat.succ_le_succ (Nat.le_add_right bu _))
          (next_refcount_table_size_ge s _)

theorem grown_table_length (s : QState) (ti nb bu bc ts mo : Nat) :
    (grown_table s ti nb bu bc ts mo).length = ts := by
  simp only [grown_table]
  rw [fold_set_length, List.length_set, List.length_take, List.length_append,
    List.length_replicate]
  omega

theorem grown_table_getD_hook (s : QState) (ti nb bu bc ts mo : Nat)
    (htibu : ti < bu) (hbuts : bu + 1 ≤ ts) :
    (grown_table s ti nb bu bc ts mo).getD ti 0 = nb := by
  simp only [grown_table]
  rw [fold_set_getD_low _ _ _ _ ti htibu, getD_set_self]
  rw [List.length_take, List.length_append, List.length_replicate]
  omega

theorem write_new_blocks_blocks_low (s : QState) (mo bc nset o i : Nat) (h : o < mo) :
    (write_new_blocks s mo bc nset).blocks o i = s.blocks o i := by
  simp only [write_new_blocks]
  rw [if_neg (fun hx => absurd hx.1 (by omega))]

theorem qcow2_free_clusters_zero_size (g : Nat) (s : QState) (off : Int)
    (ty : DiscardType) : qcow2_free_clusters g s off 0 ty = s := by
  cases g with
  | zero => rfl
  | succ u =>
      simp only [qcow2_free_clusters]
      cases u with
      | zero => rfl
      | succ v =>
          simp only [update_refcount_parts, if_true]
          rw [if_neg (by norm_num : ¬ ((0 : Int) < 0))]

/-- A whole update_refcount pass over clusters of one present, aligned
refcount block, with all new counts in range: success, with exactly the
listed slots changed and the table untouched. -/
theorem update_refcount_parts_ok (fuel : Nat) (s : QState)
    (offset length a : Int) (ty : DiscardType) (ti0 rbo : Nat) (offs : List Nat)
    (hoff0 : 0 ≤ offset)
    (halign : offset.toNat % cluster_size s = 0)
    (hlen0 : 0 < length)
    (hfuel : offs.length + 2 ≤ fuel)
    (hti0len : ti0 < s.refcount_table.length)
    (hmask : reft_offset_mask (s.refcount_table.getD ti0 0) = rbo)
    (h0 : rbo ≠ 0)
    (hal : rbo % cluster_size s = 0)
    (hsplit : (List.range (((offset.toNat + length.toNat - 1) / cluster_size s *
        cluster_size s - offset.toNat) / cluster_size s + 1)).map
        (fun i => offset.toNat + i * cluster_size s) = offs)
    (hsame : ∀ c ∈ offs, c / cluster_size s / refcount_block_size s = ti0)
    (hnodup : (offs.map (fun c => c / cluster_size s % refcount_block_size s)).Nodup)
    (hok : ∀ c ∈ offs,
      0 ≤ (s.blocks rbo (c / cluster_size s % refcount_block_size s) : Int) + a ∧
      (s.blocks rbo (c / cluster_size s % refcount_block_size s) : Int) + a ≤ 65535) :
    (update_refcount_parts fuel s offset length a ty).1 = 0 ∧
    (update_refcount_parts fuel s offset length a ty).2.1.cluster_bits =
      s.cluster_bits ∧
    (update_refcount_parts fuel s offset length a ty).2.1.refcount_table =
      s.refcount_table ∧
    ∀ o i, (update_refcount_parts fuel s offset length a ty).2.1.blocks o i =
      if o = rbo ∧ ∃ c ∈ offs, i = c / cluster_size s % refcount_block_size s then
        ((s.blocks o i : Int) + a).toNat
      else s.blocks o i := by
  have hstart : offset.toNat / cluster_size s * cluster_size s = offset.toNat :=
    Nat.div_mul_cancel (Nat.dvd_of_mod_eq_zero halign)
  obtain ⟨F, rfl⟩ : ∃ F, fuel = F + 1 := ⟨fuel - 1, by omega⟩
  simp only [update_refcount_parts]
  rw [if_neg (by omega : ¬ length < 0), if_neg (by omega : ¬ length = 0)]
  rw [hstart, hsplit]
  have hrun := same_block_loop_ok offs F s a ty ti0 rbo none (by omega) (Or.inl rfl)
    hti0len hmask h0 hal hsame hnodup hok
  generalize hR : update_rc_loop F s offs a ty none = R at hrun ⊢
  obtain ⟨hr1, hrcb, hrtab, hrblk⟩ := hrun
  rw [hr1, if_neg (by norm_num : ¬ ((0 : Int) < 0))]
  have hs2e : ∃ dd, (if R.2.1.cache_discards = true then R.2.1
      else (qcow2_process_discards R.2.1 0).1) = { R.2.1 with discards := dd } := by
    split_ifs
    · exact ⟨R.2.1.discards, rfl⟩
    · exact ⟨[], rfl⟩
  obtain ⟨dd, hs2⟩ := hs2e
  rw [hs2]
  refine ⟨rfl, hrcb, hrtab, ?_⟩
  intro o i
  show R.2.1.blocks o i = _
  exact hrblk o i

/-- C1: whenever alloc_refcount_block bootstraps a refcount block whose
backing cluster lies inside the range the block itself describes — the
table entry being absent, whether the refcount table has room at its index
(hookup) or must grow — the block flushed out is all zeroes except its own
entry, which is exactly 1; the call returns the restart signal, and
afterwards get_refcount on the block's own cluster index returns 1.  The
growth case takes the freeing of the old table through hypotheses mirroring
a consistent image: an empty old table, or an old table covered by one
present refcount block distinct from the new one. -/
theorem alloc_refcount_block_self_describes (fuel : Nat) (s : QState) (ci : Nat)
    (frs : List Nat) (tj rbj blocks_used table_size table_clusters blocks_clusters
      meta_offset : Nat)
    (habsent : ¬ (ci / refcount_block_size s < s.refcount_table.length ∧
      reft_offset_mask (s.refcount_table.getD (ci / refcount_block_size s) 0) ≠ 0))
    (hnb : 0 < (alloc_clusters_noref (fuel + 1) s (cluster_size s)).1)
    (hsame : in_same_refcount_block s
      (alloc_clusters_noref (fuel + 1) s (cluster_size s)).1.toNat
      (ci * cluster_size s) = true)
    (hbu : blocks_used = (max (ci + 1)
      ((alloc_clusters_noref (fuel + 1) s (cluster_size s)).1.toNat /
        cluster_size s + 1) + refcount_block_size s - 1) / refcount_block_size s)
    (hts : table_size = grow_ts_fix (fuel - 1) s blocks_used
      (next_refcount_table_size s (blocks_used + 1)))
    (htc : table_clusters = size_to_clusters s (table_size * 8))
    (hbc : blocks_clusters = 1 + (table_clusters + refcount_block_size s - 1) /
      refcount_block_size s)
    (hmo : meta_offset = blocks_used * refcount_block_size s * cluster_size s)
    (hgrow : s.refcount_table.length ≤ ci / refcount_block_size s →
      blocks_used ≤ qcow_max_reftable_size / 8 ∧ 1 ≤ fuel ∧
      (s.refcount_table.length = 0 ∨
        (s.refcount_table.length ≠ 0 ∧
         frs.length + 4 ≤ fuel ∧
         s.refcount_table_offset % cluster_size s = 0 ∧
         (List.range (((s.refcount_table_offset + s.refcount_table.length * 8 - 1) /
             cluster_size s * cluster_size s - s.refcount_table_offset) /
             cluster_size s + 1)).map
           (fun i => s.refcount_table_offset + i * cluster_size s) = frs ∧
         (∀ c ∈ frs, c / cluster_size s / refcount_block_size s = tj) ∧
         (frs.map (fun c => c / cluster_size s % refcount_block_size s)).Nodup ∧
         tj < table_size ∧
         reft_offset_mask ((grown_table s (ci / refcount_block_size s)
           (alloc_clusters_noref (fuel + 1) s (cluster_size s)).1.toNat blocks_used
           blocks_clusters table_size meta_offset).getD tj 0) = rbj ∧
         rbj ≠ 0 ∧
         rbj % cluster_size s = 0 ∧
         rbj ≠ (alloc_clusters_noref (fuel + 1) s (cluster_size s)).1.toNat ∧
         rbj < meta_offset ∧
         (∀ c ∈ frs, 1 ≤ s.blocks rbj (c / cluster_size s % refcount_block_size s) ∧
           s.blocks rbj (c / cluster_size s % refcount_block_size s) ≤ 65535)))) :
    (alloc_refcount_block (fuel + 2) s ci).1 = -errno_eagain ∧
    (∀ j, (alloc_refcount_block (fuel + 2) s ci).2.1.blocks
        (alloc_clusters_noref (fuel + 1) s (cluster_size s)).1.toNat j =
      if j = (alloc_clusters_noref (fuel + 1) s (cluster_size s)).1.toNat /
          cluster_size s % refcount_block_size s then 1 else 0) ∧
    (get_refcount (alloc_refcount_block (fuel + 2) s ci).2.1
      ((alloc_clusters_noref (fuel + 1) s (cluster_size s)).1.toNat /
        cluster_size s)).ret = 1 := by
  obtain ⟨hat, hab, hac, halgn⟩ := alloc_clusters_noref_core (fuel + 1) s (cluster_size s)
  have hart := alloc_clusters_noref_rto (fuel + 1) s (cluster_size s)
  set a := alloc_clusters_noref (fuel + 1) s (cluster_size s) with ha
  have hcsa : cluster_size a.2 = cluster_size s := cluster_size_congr hac
  have hrbsa : refcount_block_size a.2 = refcount_block_size s := rbs_congr hac
  have halign : a.1.toNat % cluster_size s = 0 := halgn (le_of_lt hnb)
  have hnb0 : a.1.toNat ≠ 0 := by omega
  set nb := a.1.toNat with hnbdef
  set s2 := setCounter (zeroBlock a.2 nb) nb
    (nb / cluster_size a.2 % refcount_block_size a.2) 1 with hs2
  have hs2table : s2.refcount_table = s.refcount_table := hat
  have hs2cb : s2.cluster_bits = s.cluster_bits := hac
  have hcspos : 0 < cluster_size s := cluster_size_pos s
  have hrbspos : 0 < refcount_block_size s := by unfold refcount_block_size; positivity
  have hti : nb / cluster_size s / refcount_block_size s = ci / refcount_block_size s := by
    have hs3 : nb / (2 ^ (s.cluster_bits + refcount_block_bits s)) =
        (ci * cluster_size s) / (2 ^ (s.cluster_bits + refcount_block_bits s)) := by
      have h4 := hsame
      unfold in_same_refcount_block at h4
      exact of_decide_eq_true h4
    have hpow : 2 ^ (s.cluster_bits + refcount_block_bits s) =
        cluster_size s * refcount_block_size s := by
      unfold cluster_size refcount_block_size
      rw [pow_add]
    rw [Nat.div_div_eq_div_mul, ← hpow, hs3, hpow,
      mul_comm ci (cluster_size s), Nat.mul_div_mul_left _ _ hcspos]
  have hblocks : ∀ j, s2.blocks nb j =
      if j = nb / cluster_size s % refcount_block_size s then 1 else 0 := by
    intro j
    rw [hs2]
    simp only [setCounter, zeroBlock]
    have hidx : nb / cluster_size a.2 % refcount_block_size a.2 =
        nb / cluster_size s % refcount_block_size s := by rw [hcsa, hrbsa]
    by_cases hj : j = nb / cluster_size s % refcount_block_size s
    · simp [hj, hidx]
    · simp [hj, hidx]
  have hres0 : alloc_refcount_block (fuel + 2) s ci =
      after_bootstrap (fuel + 1) s2 (ci / refcount_block_size s) ci nb := by
    simp only [alloc_refcount_block]
    rw [if_neg habsent]
    rw [← ha, ← hnbdef]
    rw [if_neg (by omega : ¬ a.1 < 0)]
    have hsame2 : in_same_refcount_block a.2 nb (ci * cluster_size a.2) = true := by
      rw [in_same_congr hac, hcsa]
      exact hsame
    rw [if_pos hsame2, ← hs2]
  by_cases hroom : ci / refcount_block_size s < s.refcount_table.length
  · have hlen2 : ci / refcount_block_size s < s2.refcount_table.length := by
      rw [hs2table]
      exact hroom
    have hres : alloc_refcount_block (fuel + 2) s ci =
        (-errno_eagain,
          { s2 with refcount_table :=
              s2.refcount_table.set (ci / refcount_block_size s) nb },
          0) := by
      rw [hres0]
      simp only [after_bootstrap]
      rw [if_pos hlen2]
    refine ⟨by rw [hres], ?_, ?_⟩
    · intro j
      rw [hres]
      exact hblocks j
    · rw [hres]
      set T : QState :=
        { s2 with refcount_table := s2.refcount_table.set (ci / refcount_block_size s) nb }
        with hT
      have hTc : T.cluster_bits = s.cluster_bits := hac
      have hTrbs : refcount_block_size T = refcount_block_size s := rbs_congr hTc
      have hTcs : cluster_size T = cluster_size s := cluster_size_congr hTc
      have hTtable : T.refcount_table =
          s.refcount_table.set (ci / refcount_block_size s) nb := by
        show s2.refcount_table.set _ _ = _
        rw [hs2table]
      have hent : T.refcount_table.getD
          (nb / cluster_size s / refcount_block_size T) 0 = nb := by
        rw [hTrbs, hti, hTtable, getD_set_self s.refcount_table _ nb hroom]
      have hne2 : T.refcount_table.getD
          (nb / cluster_size s / refcount_block_size T) 0 ≠ 0 := by
        rw [hent]; exact hnb0
      have hal2 : T.refcount_table.getD
          (nb / cluster_size s / refcount_block_size T) 0 % cluster_size T = 0 := by
        rw [hent, hTcs]; exact halign
      have hread := get_refcount_read_case T (nb / cluster_size s) hne2 hal2
      rw [hread]
      show ((T.blocks (T.refcount_table.getD
          (nb / cluster_size s / refcount_block_size T) 0)
          (nb / cluster_size s % refcount_block_size T) : Nat) : Int) = 1
      rw [hent, hTrbs]
      have hTb : T.blocks = s2.blocks := rfl
      rw [hTb, hblocks]
      rw [if_pos rfl]
      norm_num
  · obtain ⟨hEF, hfuel1, hfree⟩ := hgrow (le_of_not_lt hroom)
    obtain ⟨G, rfl⟩ : ∃ G, fuel = G + 1 := ⟨fuel - 1, by omega⟩
    simp only [Nat.add_sub_cancel] at hts
    have htibu : ci / refcount_block_size s < blocks_used := by
      have hmax := le_max_left (ci + 1) (nb / cluster_size s + 1)
      have h2 : (ci + 1 + refcount_block_size s - 1) / refcount_block_size s ≤
          blocks_used := by
        rw [hbu]
        exact Nat.div_le_div_right (by omega)
      have h3 : ci + 1 + refcount_block_size s - 1 = ci + refcount_block_size s := by
        omega
      rw [h3, Nat.add_div_right _ hrbspos] at h2
      omega
    have hbuts : blocks_used + 1 ≤ table_size := by
      rw [hts]
      apply grow_ts_fix_ge
      have := next_refcount_table_size_ge s (blocks_used + 1)
      omega
    have hnbmo : nb < meta_offset := by
      have hxle : nb / cluster_size s + 1 ≤
          max (ci + 1) (nb / cluster_size s + 1) := le_max_right _ _
      have hceil : max (ci + 1) (nb / cluster_size s + 1) ≤
          blocks_used * refcount_block_size s := by
        rw [hbu, Nat.mul_comm]
        have hdm := Nat.div_add_mod
          (max (ci + 1) (nb / cluster_size s + 1) + refcount_block_size s - 1)
          (refcount_block_size s)
        have hml := Nat.mod_lt
          (max (ci + 1) (nb / cluster_size s + 1) + refcount_block_size s - 1) hrbspos
        omega
      have hdivlt : nb / cluster_size s < blocks_used * refcount_block_size s := by
        omega
      have hnbal : nb / cluster_size s * cluster_size s = nb :=
        Nat.div_mul_cancel (Nat.dvd_of_mod_eq_zero halign)
      calc nb = nb / cluster_size s * cluster_size s := hnbal.symm
        _ < blocks_used * refcount_block_size s * cluster_size s :=
            mul_lt_mul_of_pos_right hdivlt hcspos
        _ = meta_offset := hmo.symm
    have tail : ∀ X : QState, X.cluster_bits = s.cluster_bits →
        X.refcount_table = grown_table s (ci / refcount_block_size s) nb blocks_used
          blocks_clusters table_size meta_offset →
        (∀ j, X.blocks nb j =
          if j = nb / cluster_size s % refcount_block_size s then 1 else 0) →
        (get_refcount X (nb / cluster_size s)).ret = 1 := by
      intro X hXcb hXtab hXblk
      have hXrbs : refcount_block_size X = refcount_block_size s := rbs_congr hXcb
      have hXcs : cluster_size X = cluster_size s := cluster_size_congr hXcb
      have hent : X.refcount_table.getD
          (nb / cluster_size s / refcount_block_size X) 0 = nb := by
        rw [hXrbs, hti, hXtab]
        exact grown_table_getD_hook s _ nb _ _ _ _ htibu hbuts
      have hne2 : X.refcount_table.getD
          (nb / cluster_size s / refcount_block_size X) 0 ≠ 0 := by
        rw [hent]; exact hnb0
      have hal2 : X.refcount_table.getD
          (nb / cluster_size s / refcount_block_size X) 0 % cluster_size X = 0 := by
        rw [hent, hXcs]; exact halign
      rw [get_refcount_read_case X (nb / cluster_size s) hne2 hal2]
      show ((X.blocks (X.refcount_table.getD
          (nb / cluster_size s / refcount_block_size X) 0)
          (nb / cluster_size s % refcount_block_size X) : Nat) : Int) = 1
      rw [hent, hXrbs, hXblk, if_pos rfl]
      norm_num
    have hcs2c : cluster_size s2 = cluster_size s := cluster_size_congr hs2cb
    have hrbs2c : refcount_block_size s2 = refcount_block_size s := rbs_congr hs2cb
    have hstc : ∀ x, size_to_clusters s2 x = size_to_clusters s x :=
      size_to_clusters_congr hs2cb
    have hnrtsc : ∀ m, next_refcount_table_size s2 m = next_refcount_table_size s m :=
      next_refcount_table_size_congr hs2cb hs2table
    have hgtfc : ∀ f bu ts, grow_ts_fix f s2 bu ts = grow_ts_fix f s bu ts :=
      grow_ts_fix_congr hs2cb hs2table
    have hgtc : ∀ ti2 nb2 bu bc ts mo, grown_table s2 ti2 nb2 bu bc ts mo =
        grown_table s ti2 nb2 bu bc ts mo := grown_table_congr hs2cb hs2table
    rw [hres0]
    simp only [after_bootstrap]
    rw [if_neg (show ¬ ci / refcount_block_size s < s2.refcount_table.length by
      rw [hs2table]; exact hroom)]
    simp only [grow_refcount_table]
    rw [hcs2c, hrbs2c]
    simp only [hstc, hnrtsc, hgtfc, hgtc]
    rw [← hbu, ← hts, ← htc, ← hbc, ← hmo]
    rw [if_neg (not_lt.mpr hEF)]
    have hWtab : (write_new_blocks s2 meta_offset blocks_clusters
        (table_clusters + blocks_clusters)).refcount_table = s.refcount_table := hat
    have hWrto : (write_new_blocks s2 meta_offset blocks_clusters
        (table_clusters + blocks_clusters)).refcount_table_offset =
        s.refcount_table_offset := hart
    have hWcb : (write_new_blocks s2 meta_offset blocks_clusters
        (table_clusters + blocks_clusters)).cluster_bits = s.cluster_bits := hac
    have hWblk : ∀ o i, o < meta_offset →
        (write_new_blocks s2 meta_offset blocks_clusters
          (table_clusters + blocks_clusters)).blocks o i = s2.blocks o i :=
      fun o i h => write_new_blocks_blocks_low s2 meta_offset blocks_clusters _ o i h
    rw [hWtab, hWrto]
    generalize hW : write_new_blocks s2 meta_offset blocks_clusters
      (table_clusters + blocks_clusters) = W at hWcb hWblk ⊢
    generalize hSS : ({ W with
        refcount_table := grown_table s (ci / refcount_block_size s) nb blocks_used
          blocks_clusters table_size meta_offset
        refcount_table_offset := meta_offset + blocks_clusters * cluster_size s } :
      QState) = SS
    have hSStab : SS.refcount_table = grown_table s (ci / refcount_block_size s) nb
        blocks_used blocks_clusters table_size meta_offset := by rw [← hSS]
    have hSScb : SS.cluster_bits = s.cluster_bits := by rw [← hSS]; exact hWcb
    have hSSblk : ∀ o i, SS.blocks o i = W.blocks o i := by
      intro o i
      rw [← hSS]
    have hSScs : cluster_size SS = cluster_size s := cluster_size_congr hSScb
    have hSSrbs : refcount_block_size SS = refcount_block_size s := rbs_congr hSScb
    rcases hfree with hlen0A | hB
    · rw [hlen0A]
      simp only [Nat.zero_mul, Nat.cast_zero]
      rw [qcow2_free_clusters_zero_size]
      have hblkA : ∀ j, SS.blocks nb j =
          if j = nb / cluster_size s % refcount_block_size s then 1 else 0 := by
        intro j
        rw [hSSblk, hWblk nb j hnbmo]
        exact hblocks j
      exact ⟨trivial, hblkA, tail SS hSScb hSStab hblkA⟩
    · obtain ⟨hne0, hfuelF, halF, hsplitF, hsameF, hnodupF, htjts, hmaskF, hrbj0,
        hrbjal, hrbjnb, hrbjmo, hokF⟩ := hB
      obtain ⟨G2, rfl⟩ : ∃ G2, G = G2 + 1 := ⟨G - 1, by omega⟩
      simp only [qcow2_free_clusters]
      have key := update_refcount_parts_ok G2 SS
        ((s.refcount_table_offset : Nat) : Int)
        ((s.refcount_table.length * 8 : Nat) : Int) (-1) DiscardType.other tj rbj frs
        (Int.natCast_nonneg _)
        (by rw [Int.toNat_natCast, hSScs]; exact halF)
        (by omega)
        (by omega)
        (by rw [hSStab, grown_table_length]; exact htjts)
        (by rw [hSStab]; exact hmaskF)
        hrbj0
        (by rw [hSScs]; exact hrbjal)
        (by simp only [hSScs, Int.toNat_natCast]; exact hsplitF)
        (by intro c hc
            rw [hSScs, hSSrbs]
            exact hsameF c hc)
        (by simp only [hSScs, hSSrbs]
            exact hnodupF)
        (by intro c hc
            rw [hSScs, hSSrbs, hSSblk, hWblk rbj _ hrbjmo]
            have hs2b : s2.blocks rbj (c / cluster_size s % refcount_block_size s) =
                s.blocks rbj (c / cluster_size s % refcount_block_size s) := by
              rw [hs2]
              simp only [setCounter, zeroBlock]
              rw [if_neg (fun hx => hrbjnb hx.1), if_neg hrbjnb]
              exact congrFun (congrFun hab rbj) _
            rw [hs2b]
            have := hokF c hc
            omega)
      obtain ⟨hP1, hPcb, hPtab, hPblk⟩ := key
      simp only [hSScs, hSSrbs] at hPblk
      generalize hP : update_refcount_parts G2 SS
        ((s.refcount_table_offset : Nat) : Int)
        ((s.refcount_table.length * 8 : Nat) : Int) (-1) DiscardType.other = P
        at hPcb hPtab hPblk ⊢
      have hblkB : ∀ j, P.2.1.blocks nb j =
          if j = nb / cluster_size s % refcount_block_size s then 1 else 0 := by
        intro j
        rw [hPblk nb j, if_neg (fun hx => hrbjnb hx.1.symm), hSSblk, hWblk nb j hnbmo]
        exact hblocks j
      exact ⟨trivial, hblkB, tail P.2.1 (hPcb.trans hSScb) (hPtab.trans hSStab) hblkB⟩

theorem alloc_refcount_block_self_describes_witness :
    (alloc_refcount_block 20 stateC1 1).1 = -errno_eagain ∧
    (get_refcount (alloc_refcount_block 20 stateC1 1).2.1
      ((alloc_clusters_noref 19 stateC1 (cluster_size stateC1)).1.toNat /
        cluster_size stateC1)).ret = 1 :=
  ⟨(alloc_refcount_block_self_describes 18 stateC1 1 [] 0 0 1 64 1 2 131072
      (by decide) (by decide) (by decide) (by decide) (by decide) (by decide)
      (by decide) (by decide) (by decide)).1,
    (alloc_refcount_block_self_describes 18 stateC1 1 [] 0 0 1 64 1 2 131072
      (by decide) (by decide) (by decide) (by decide) (by decide) (by decide)
      (by decide) (by decide) (by decide)).2.2⟩

end Qcow2